import Mathlib

/-!
Mesbah, `scripts/common.js`

A shallow embedding of the budget range slider (`wireBudgetSlider`) and the
quantity stepper (`wireQuantityControls`) of `src/scripts/common.js`.

Modelling conventions.

* Numbers are IEEE binary64 doubles.  A finite double is carried as the
  rational it denotes (`JsNum.fin`); every arithmetic operation computes the
  exact result and rounds it to the nearest double, ties to even.  Signed
  zeros are not distinguished.
* A control's `value` is a `String`, as in the DOM.  The two sliders are range
  controls and the two fields are number fields: a store into a control goes
  through the control's value sanitisation (`rangeSanitize`,
  `numberSanitize`).
* `sliderRange.style.left` / `.width` are recorded as the number that the
  source puts in front of the `%` sign; what the style engine then does with
  the string is not modelled.
-/

namespace Mesbah

/-! ## Characters and digits -/

/-- ECMAScript `WhiteSpace` and `LineTerminator` code points. -/
def isWhiteSpace (c : Char) : Bool :=
  let n := c.toNat
  n = 0x09 || n = 0x0A || n = 0x0B || n = 0x0C || n = 0x0D || n = 0x20 ||
  n = 0xA0 || n = 0x1680 || (0x2000 ≤ n && n ≤ 0x200A) || n = 0x2028 ||
  n = 0x2029 || n = 0x202F || n = 0x205F || n = 0x3000 || n = 0xFEFF

/-- A decimal digit `0`..`9`. -/
def isDigit (c : Char) : Bool :=
  48 ≤ c.toNat && c.toNat ≤ 57

/-- The numeric value of a decimal digit character. -/
def digitVal (c : Char) : Nat :=
  c.toNat - 48

/-- The character of a decimal digit value. -/
def digitChar (d : Nat) : Char :=
  Char.ofNat (48 + d)

/-- Value of a string of decimal digits, most significant first. -/
def digitsVal (cs : List Char) : Nat :=
  cs.foldl (fun acc c => acc * 10 + digitVal c) 0

/-- Decimal digits of a natural number, most significant first; `fuel` bounds
the number of digits produced. -/
def natDigits : Nat → Nat → List Char
  | 0, _ => []
  | fuel + 1, n =>
    if n < 10 then [digitChar n] else natDigits fuel (n / 10) ++ [digitChar (n % 10)]

/-- The decimal digits of an integer, with a minus sign when negative. -/
def intChars (i : Int) : List Char :=
  if i < 0 then '-' :: natDigits (i.natAbs + 1) i.natAbs
  else natDigits (i.natAbs + 1) i.natAbs

/-- The plain decimal string of an integer: how the page markup and a user
write an integer, and how a number of magnitude up to `2^53` prints. -/
def intToString (i : Int) : String :=
  String.mk (intChars i)

/-! ## Doubles -/

/-- A JavaScript number.  A finite value is the rational a double denotes. -/
inductive JsNum where
  | fin (q : ℚ)
  | posInf
  | negInf
  | nan
  deriving DecidableEq, Repr

/-- Number of binary digits of `n`; `fuel` bounds the count. -/
def bitLen : Nat → Nat → Nat
  | 0, _ => 0
  | fuel + 1, n => if n = 0 then 0 else bitLen fuel (n / 2) + 1

/-- Number of binary digits of `n`: `2^(bits n - 1) ≤ n < 2^(bits n)` for `n > 0`. -/
def bits (n : Nat) : Nat :=
  bitLen n n

/-- The integer nearest to `n / d`, a tie going to the even one. -/
def roundHalfEven (n d : Nat) : Nat :=
  let q := n / d
  let r := n % d
  if 2 * r < d then q
  else if d < 2 * r then q + 1
  else if q % 2 = 0 then q else q + 1

/-- The binary exponent `k` of `n / d > 0`: `2^k ≤ n / d < 2^(k+1)`. -/
def binaryExponent (n d : Nat) : Int :=
  let k0 : Int := (bits n : Int) - (bits d : Int)
  if d * 2 ^ k0.toNat ≤ n * 2 ^ (-k0).toNat then k0 else k0 - 1

/-- Round the positive ratio `n / d` to the nearest double, ties to even: 53
significant bits, least exponent `-1074`, overflow to infinity. `neg` is the
sign to give the result. -/
def roundNearest (neg : Bool) (n d : Nat) : JsNum :=
  let e : Int := max (binaryExponent n d - 52) (-1074)
  let m := roundHalfEven (n * 2 ^ (-e).toNat) (d * 2 ^ e.toNat)
  if 971 < e ∨ (e = 971 ∧ m = 2 ^ 53) then
    (if neg then JsNum.negInf else JsNum.posInf)
  else
    JsNum.fin (mkRat (if neg then -((m * 2 ^ e.toNat : Nat) : Int) else ((m * 2 ^ e.toNat : Nat) : Int))
      (2 ^ (-e).toNat))

/-- The double nearest to the ratio `n / d`.  An integer of magnitude at most
`2^53` is a double and rounds to itself; everything else goes through
`roundNearest`. -/
def roundRatio (n : Int) (d : Nat) : JsNum :=
  if d = 0 then JsNum.nan
  else if n % (d : Int) = 0 ∧ (n / (d : Int)).natAbs ≤ 2 ^ 53 then
    JsNum.fin ((n / (d : Int) : Int) : ℚ)
  else roundNearest (decide (n < 0)) n.natAbs d

namespace JsNum

/-- The double nearest to an integer. -/
def ofInt (i : Int) : JsNum :=
  roundRatio i 1

/-- Addition `a + b`. -/
def add : JsNum → JsNum → JsNum
  | fin a, fin b => roundRatio (a.num * b.den + b.num * a.den) (a.den * b.den)
  | nan, _ => nan
  | _, nan => nan
  | posInf, negInf => nan
  | negInf, posInf => nan
  | posInf, _ => posInf
  | negInf, _ => negInf
  | fin _, posInf => posInf
  | fin _, negInf => negInf

/-- Subtraction `a - b`. -/
def sub : JsNum → JsNum → JsNum
  | fin a, fin b => roundRatio (a.num * b.den - b.num * a.den) (a.den * b.den)
  | nan, _ => nan
  | _, nan => nan
  | posInf, posInf => nan
  | negInf, negInf => nan
  | posInf, _ => posInf
  | negInf, _ => negInf
  | fin _, posInf => negInf
  | fin _, negInf => posInf

/-- Division `a / b`; a zero divisor gives `±Infinity`, or `NaN` for `0 / 0`. -/
def div : JsNum → JsNum → JsNum
  | fin a, fin b =>
    if b.num = 0 then (if a.num = 0 then nan else if 0 < a.num then posInf else negInf)
    else roundRatio (a.num * b.den * b.num.sign) (a.den * b.num.natAbs)
  | nan, _ => nan
  | _, nan => nan
  | fin _, _ => fin 0
  | posInf, fin b => if 0 ≤ b.num then posInf else negInf
  | negInf, fin b => if 0 ≤ b.num then negInf else posInf
  | _, _ => nan

/-- Multiplication `a * b`; `±Infinity * 0` is `NaN`. -/
def mul : JsNum → JsNum → JsNum
  | fin a, fin b => roundRatio (a.num * b.num) (a.den * b.den)
  | nan, _ => nan
  | _, nan => nan
  | posInf, fin b => if b.num = 0 then nan else if 0 < b.num then posInf else negInf
  | negInf, fin b => if b.num = 0 then nan else if 0 < b.num then negInf else posInf
  | fin a, posInf => if a.num = 0 then nan else if 0 < a.num then posInf else negInf
  | fin a, negInf => if a.num = 0 then nan else if 0 < a.num then negInf else posInf
  | posInf, posInf => posInf
  | negInf, negInf => posInf
  | posInf, negInf => negInf
  | negInf, posInf => negInf

/-- Comparison `a < b`: false when either operand is `NaN`. -/
def lt : JsNum → JsNum → Bool
  | fin a, fin b => decide (a.num * b.den < b.num * a.den)
  | nan, _ => false
  | _, nan => false
  | negInf, negInf => false
  | negInf, _ => true
  | _, negInf => false
  | posInf, _ => false
  | fin _, posInf => true

/-- Comparison `a <= b`: false when either operand is `NaN`. -/
def le : JsNum → JsNum → Bool
  | fin a, fin b => decide (a.num * b.den ≤ b.num * a.den)
  | nan, _ => false
  | _, nan => false
  | negInf, _ => true
  | _, posInf => true
  | posInf, _ => false
  | fin _, negInf => false

instance : Add JsNum := ⟨add⟩
instance : Sub JsNum := ⟨sub⟩
instance : Div JsNum := ⟨div⟩
instance : Mul JsNum := ⟨mul⟩

end JsNum

/-- The builtin `Math.min(a, b)`: `NaN` when either argument is `NaN`. -/
def mathMin (a b : JsNum) : JsNum :=
  if a = JsNum.nan ∨ b = JsNum.nan then JsNum.nan
  else if JsNum.lt b a then b else a

/-- The builtin `Math.max(a, b)`: `NaN` when either argument is `NaN`. -/
def mathMax (a b : JsNum) : JsNum :=
  if a = JsNum.nan ∨ b = JsNum.nan then JsNum.nan
  else if JsNum.lt a b then b else a

/-- Comparison `a > b`. -/
def jsGt (a b : JsNum) : Bool :=
  JsNum.lt b a

/-- Comparison `a <= b`. -/
def jsLe (a b : JsNum) : Bool :=
  JsNum.le a b

/-! ## `Number::toString` -/

/-- The decimal exponent `n` of `a / b > 0`: `10^(n-1) ≤ a / b < 10^n`. -/
def decimalExponent (a b : Nat) : Int :=
  let la : Int := ((natDigits (a + 1) a).length : Int)
  let lb : Int := ((natDigits (b + 1) b).length : Int)
  let k0 : Int := la - lb
  if b * 10 ^ k0.toNat ≤ a * 10 ^ (-k0).toNat then k0 + 1 else k0

/-- The integer `c`, if any, for which `c * 10^p` reads back as the double
`a / b`; of two, the one nearer to `a / b`, the even one on a tie. -/
def shortestAt (a b : Nat) (p : Int) : Option Nat :=
  let n := a * 10 ^ (-p).toNat
  let d := b * 10 ^ p.toNat
  let lo := n / d
  let r := n % d
  let ok (c : Nat) : Bool :=
    decide (0 < c ∧ roundRatio ((c * 10 ^ p.toNat : Nat) : Int) (10 ^ (-p).toNat) = roundRatio (a : Int) b)
  if ok lo ∧ ok (lo + 1) then
    (if 2 * r < d then some lo
     else if d < 2 * r then some (lo + 1)
     else if lo % 2 = 0 then some lo else some (lo + 1))
  else if ok lo then some lo
  else if ok (lo + 1) then some (lo + 1)
  else none

/-- Search for the shortest digit string: `k` digits are tried for
`k = k0, k0 + 1, …`, at most `fuel` of them. Returns the digits' value and the
power of ten that scales it. -/
def shortestFrom (a b : Nat) (n0 : Int) : Nat → Nat → Nat × Int
  | 0, k => ((a * 10 ^ (-(n0 - k)).toNat) / (b * 10 ^ (n0 - k).toNat), n0 - k)
  | fuel + 1, k =>
    match shortestAt a b (n0 - k) with
    | some c => (c, n0 - k)
    | none => shortestFrom a b n0 fuel (k + 1)

/-- Drop trailing decimal zeros from `c`, raising the power of ten `p`. -/
def stripZeros : Nat → Nat → Int → Nat × Int
  | 0, c, p => (c, p)
  | fuel + 1, c, p => if c ≠ 0 ∧ c % 10 = 0 then stripZeros fuel (c / 10) (p + 1) else (c, p)

/-- The characters of `Number::toString` for the positive double `a / b`. -/
def positiveChars (a b : Nat) : List Char :=
  let n0 := decimalExponent a b
  let (c0, p0) := shortestFrom a b n0 17 1
  let (s, p) := stripZeros 400 c0 p0
  let ds := natDigits (s + 1) s
  let k : Int := (ds.length : Int)
  let n : Int := k + p
  if k ≤ n ∧ n ≤ 21 then ds ++ List.replicate (n - k).toNat '0'
  else if 0 < n ∧ n ≤ 21 then ds.take n.toNat ++ '.' :: ds.drop n.toNat
  else if -6 < n ∧ n ≤ 0 then '0' :: '.' :: (List.replicate (-n).toNat '0' ++ ds)
  else
    let e := n - 1
    let sign := if e < 0 then '-' else '+'
    let ed := natDigits (e.natAbs + 1) e.natAbs
    match ds with
    | [] => []
    | [c] => c :: 'e' :: sign :: ed
    | c :: cs => c :: '.' :: (cs ++ 'e' :: sign :: ed)

/-- The builtin `Number::toString`, applied when a number is stored into a
`value`.  An integer of magnitude at most `2^53` prints as its plain digits. -/
def numToString : JsNum → String
  | JsNum.nan => "NaN"
  | JsNum.posInf => "Infinity"
  | JsNum.negInf => "-Infinity"
  | JsNum.fin q =>
    if q.den = 1 ∧ q.num.natAbs ≤ 2 ^ 53 then intToString q.num
    else if q.num < 0 then String.mk ('-' :: positiveChars q.num.natAbs q.den)
    else String.mk (positiveChars q.num.natAbs q.den)

/-! ## `parseInt(s, 10)` -/

/-- Split an optional leading sign off: `(isNegative, rest)`. -/
def splitSign : List Char → Bool × List Char
  | [] => (false, [])
  | c :: cs => if c = '-' then (true, cs) else if c = '+' then (false, cs) else (false, c :: cs)

/-- The builtin `parseInt` on characters: skip leading white space, take an
optional sign, then the longest run of decimal digits; no digit at all gives
`NaN`; the integer read is rounded to a double. -/
def parseIntChars (cs : List Char) : JsNum :=
  let (neg, body) := splitSign (cs.dropWhile isWhiteSpace)
  let z := body.takeWhile isDigit
  if z.isEmpty then JsNum.nan
  else if neg then JsNum.ofInt (-(digitsVal z : Int)) else JsNum.ofInt (digitsVal z : Int)

/-- The builtin `parseInt(s, 10)`. -/
def parseInt (s : String) : JsNum :=
  parseIntChars s.data

/-! ## The implicit string-to-number conversion -/

/-- Strip white space from both ends. -/
def trimWhiteSpace (cs : List Char) : List Char :=
  ((cs.dropWhile isWhiteSpace).reverse.dropWhile isWhiteSpace).reverse

/-- The optional exponent part `e±ddd` of a decimal literal: its value, `0` when
absent, `none` when malformed. -/
def exponentPart : List Char → Option Int
  | [] => some 0
  | c :: cs =>
    if c = 'e' || c = 'E' then
      let (neg, ds) := splitSign cs
      if ds.isEmpty || !ds.all isDigit then none
      else if neg then some (-(digitsVal ds : Int)) else some (digitsVal ds : Int)
    else none

/-- An unsigned decimal literal `ddd`, `ddd.ddd`, `ddd.`, `.ddd`, each with an
optional exponent: its value as a ratio `(n, d)`; `none` when the characters
are not such a literal. -/
def unsignedDecimal (cs : List Char) : Option (Nat × Nat) :=
  let ip := cs.takeWhile isDigit
  let r1 := cs.dropWhile isDigit
  let (fp, r2) :=
    match r1 with
    | [] => (([] : List Char), ([] : List Char))
    | c :: t => if c = '.' then (t.takeWhile isDigit, t.dropWhile isDigit) else ([], c :: t)
  if ip.isEmpty && fp.isEmpty then none
  else
    match exponentPart r2 with
    | none => none
    | some e =>
      some (digitsVal (ip ++ fp) * 10 ^ e.toNat, 10 ^ fp.length * 10 ^ (-e).toNat)

/-- A signed decimal literal, including `Infinity`. -/
def strDecimalLiteral (cs : List Char) : Option JsNum :=
  let (neg, body) := splitSign cs
  if body = ['I', 'n', 'f', 'i', 'n', 'i', 't', 'y'] then
    some (if neg then JsNum.negInf else JsNum.posInf)
  else
    match unsignedDecimal body with
    | none => none
    | some (n, d) => some (roundRatio (if neg then -(n : Int) else (n : Int)) d)

/-- Value of a digit in the given radix (up to 16), `none` when it is not one. -/
def radixDigitVal (radix : Nat) (c : Char) : Option Nat :=
  let n := c.toNat
  let v :=
    if 48 ≤ n && n ≤ 57 then some (n - 48)
    else if 97 ≤ n && n ≤ 102 then some (n - 87)
    else if 65 ≤ n && n ≤ 70 then some (n - 55)
    else none
  match v with
  | some d => if d < radix then some d else none
  | none => none

/-- Value of a digit string in the given radix, `none` when a character is not
a digit of that radix. -/
def radixVal (radix : Nat) (cs : List Char) : Option Nat :=
  cs.foldl
    (fun acc c =>
      match acc, radixDigitVal radix c with
      | some a, some d => some (a * radix + d)
      | _, _ => none)
    (some 0)

/-- A binary, octal or hexadecimal integer literal `0b…`, `0o…`, `0x…`. -/
def nonDecimalLiteral : List Char → Option JsNum
  | z :: p :: ds =>
    if z = '0' && !ds.isEmpty then
      let radix : Nat :=
        if p = 'x' || p = 'X' then 16
        else if p = 'o' || p = 'O' then 8
        else if p = 'b' || p = 'B' then 2
        else 0
      match radixVal radix ds with
      | some v => some (JsNum.ofInt (v : Int))
      | none => none
    else none
  | _ => none

/-- The string-to-number conversion applied to the operands of `-`: white space
is trimmed, the empty string is `0`, a numeric literal is the double nearest
its value, anything else is `NaN`. -/
def toNumber (s : String) : JsNum :=
  let cs := trimWhiteSpace s.data
  if cs.isEmpty then JsNum.fin 0
  else
    match strDecimalLiteral cs with
    | some v => v
    | none =>
      match nonDecimalLiteral cs with
      | some v => v
      | none => JsNum.nan

/-! ## The controls

The page markup is not part of `src/`; the specification (§3, §4.1, §6) names
two range-type controls over one integer track `min..max` and two numeric
fields.  Their value sanitisation follows the HTML standard for
`input type=range` (default step `1`, step base `min`) and
`input type=number`. -/

/-- Modelled from the spec: part of the value syntax of the controls whose
markup is missing.  The exponent `e±ddd` of an HTML floating-point number: its
value, `0` when absent, `none` when malformed. -/
def htmlExponent : List Char → Option Int
  | [] => some 0
  | c :: cs =>
    if c = 'e' || c = 'E' then
      let (neg, ds) := splitSign cs
      if ds.isEmpty || !ds.all isDigit then none
      else if neg then some (-(digitsVal ds : Int)) else some (digitsVal ds : Int)
    else none

/-- Modelled from the spec: the fields and sliders are HTML controls whose
markup is missing.  A valid floating-point number of the HTML standard:
an optional `-`, digits and/or a `.` followed by digits, an optional exponent.
Returns the double it denotes; `none` when the string is not valid or its value
is not a finite double. -/
def htmlNumber (s : String) : Option ℚ :=
  let (neg, body) :=
    match s.data with
    | [] => (false, ([] : List Char))
    | c :: cs => if c = '-' then (true, cs) else (false, c :: cs)
  let ip := body.takeWhile isDigit
  let r1 := body.dropWhile isDigit
  let frac : Option (List Char × List Char) :=
    match r1 with
    | [] => some ([], [])
    | c :: t =>
      if c = '.' then
        (if (t.takeWhile isDigit).isEmpty then none
         else some (t.takeWhile isDigit, t.dropWhile isDigit))
      else some ([], c :: t)
  match frac with
  | none => none
  | some (fp, r2) =>
    if ip.isEmpty && fp.isEmpty then none
    else
      match htmlExponent r2 with
      | none => none
      | some e =>
        let n : Nat := digitsVal (ip ++ fp) * 10 ^ e.toNat
        let d : Nat := 10 ^ fp.length * 10 ^ (-e).toNat
        match roundRatio (if neg then -(n : Int) else (n : Int)) d with
        | JsNum.fin q => some q
        | _ => none

/-- Modelled from the spec: a numeric field (`input type=number`) whose markup
is missing.  Its value sanitisation: a string that is not a valid
floating-point number becomes the empty string. -/
def numberSanitize (v : String) : String :=
  match htmlNumber v with
  | some _ => v
  | none => ""

/-- Modelled from the spec: the number that a track bound of the missing markup
denotes (the control's default bound when it is not a finite double). -/
def boundValue (i : Int) (dflt : ℚ) : ℚ :=
  match JsNum.ofInt i with
  | JsNum.fin q => q
  | _ => dflt

/-- Modelled from the spec: the range control of the missing markup keeps its
value valid.  The valid range value nearest to `x` on a track `lo..hi` with step `1` from
`lo`: a value below `lo` becomes `lo`; a value above `hi` becomes `hi` (unless
`hi < lo`); a value off the step grid is rounded to the nearest step, half a
step going up.  The result is the ratio `(n, d)`. -/
def rangeNearest (lo hi x : ℚ) : Int × Nat :=
  if x.num * lo.den < lo.num * x.den then (lo.num, lo.den)
  else if lo.num * hi.den ≤ hi.num * lo.den ∧ hi.num * x.den < x.num * hi.den then (hi.num, hi.den)
  else
    let dn : Int := x.num * lo.den - lo.num * x.den
    let dd : Nat := x.den * lo.den
    if dn % (dd : Int) = 0 then (x.num, x.den)
    else (lo.num + ((2 * dn + dd) / (2 * (dd : Int))) * lo.den, lo.den)

/-- Modelled from the spec: a range control (`input type=range`) over the
integer track `min..max` whose markup is missing.  Its value sanitisation: a
string that is not a valid floating-point number becomes the default value
(the middle of the track, or `min` when `max < min`); a number outside the
track or off the step grid is replaced by the nearest valid value; a valid
value is kept as written. -/
def rangeSanitize (min max : Int) (v : String) : String :=
  let lo := boundValue min 0
  let hi := boundValue max 100
  match htmlNumber v with
  | some x =>
    let (n, d) := rangeNearest lo hi x
    if n * x.den = x.num * d then v else numToString (roundRatio n d)
  | none =>
    let mid : ℚ :=
      if hi.num * lo.den < lo.num * hi.den then lo
      else
        match roundRatio (lo.num * hi.den + hi.num * lo.den) (2 * lo.den * hi.den) with
        | JsNum.fin q => q
        | _ => lo
    let (n, d) := rangeNearest lo hi mid
    numToString (roundRatio n d)

/-! ## The budget slider (`wireBudgetSlider`) -/

/-- The DOM state the slider code reads and writes: the track bounds `min`,
`max` of both range controls, the `value` of the range controls `#fromSlider`,
`#toSlider` and of the fields `#fromInput`, `#toInput`, and the `left`/`width`
percentages of `.slider-range`. -/
structure Slider where
  min : Int
  max : Int
  fromSlider : String
  toSlider : String
  fromInput : String
  toInput : String
  left : JsNum
  width : JsNum
  deriving DecidableEq, Repr

/-- The string `toSlider.min`. -/
def Slider.toSliderMin (s : Slider) : String :=
  intToString s.min

/-- The string `toSlider.max`. -/
def Slider.toSliderMax (s : Slider) : String :=
  intToString s.max

/-- The assignment `fromSlider.value = x`. -/
def Slider.setFromSlider (s : Slider) (x : JsNum) : Slider :=
  { s with fromSlider := rangeSanitize s.min s.max (numToString x) }

/-- The assignment `toSlider.value = x`. -/
def Slider.setToSlider (s : Slider) (x : JsNum) : Slider :=
  { s with toSlider := rangeSanitize s.min s.max (numToString x) }

/-- The assignment `fromInput.value = x`. -/
def Slider.setFromInput (s : Slider) (x : JsNum) : Slider :=
  { s with fromInput := numberSanitize (numToString x) }

/-- The assignment `toInput.value = x`. -/
def Slider.setToInput (s : Slider) (x : JsNum) : Slider :=
  { s with toInput := numberSanitize (numToString x) }

/-- Function `fillSlider(fromInput, toInput, toSlider, sliderRange)`. -/
def fillSlider (s : Slider) : Slider :=
  let rangeDistance := toNumber s.toSliderMax - toNumber s.toSliderMin
  let fromPosition := toNumber s.fromInput - toNumber s.toSliderMin
  let toPosition := toNumber s.toInput - toNumber s.toSliderMin
  { s with
    left := (fromPosition / rangeDistance) * JsNum.fin 100
    width := ((toPosition - fromPosition) / rangeDistance) * JsNum.fin 100 }

/-- Function `getParsedValue(fromInput, toInput)`. -/
def getParsedValue (s : Slider) : JsNum × JsNum :=
  (parseInt s.fromInput, parseInt s.toInput)

/-- Function `controlFromInput(fromSlider, fromInput, toInput, controlSlider)`. -/
def controlFromInput (s : Slider) : Slider :=
  let (fromV, toV) := getParsedValue s
  let s1 := fillSlider s
  if jsGt fromV toV then
    (s1.setFromSlider toV).setFromInput toV
  else
    s1.setFromSlider fromV

/-- Function `controlToInput(toSlider, fromInput, toInput, controlSlider)`. -/
def controlToInput (s : Slider) : Slider :=
  let (fromV, toV) := getParsedValue s
  let s1 := fillSlider s
  if jsLe fromV toV then
    s1.setToSlider toV
  else
    (s1.setToInput fromV).setToSlider fromV

/-- The handler `fromSlider.oninput`. -/
def fromSliderOninput (s : Slider) : Slider :=
  let value := mathMin (parseInt s.fromSlider) (parseInt s.toSlider - JsNum.fin 100)
  fillSlider ((s.setFromSlider value).setFromInput value)

/-- The handler `toSlider.oninput`. -/
def toSliderOninput (s : Slider) : Slider :=
  let value := mathMax (parseInt s.toSlider) (parseInt s.fromSlider + JsNum.fin 100)
  fillSlider ((s.setToSlider value).setToInput value)

/-- The handler `fromInput.oninput`. -/
def fromInputOninput (s : Slider) : Slider :=
  controlFromInput s

/-- The handler `toInput.oninput`. -/
def toInputOninput (s : Slider) : Slider :=
  controlToInput s

/-! ### User events

The browser stores the dragged or typed raw value in the control, through the
control's value sanitisation, and then runs the control's `oninput` handler. -/

/-- A user-originated change on one of the four controls, with its raw value. -/
inductive Event where
  | lowDrag (v : String)
  | highDrag (v : String)
  | lowEdit (v : String)
  | highEdit (v : String)
  deriving DecidableEq, Repr

/-- One event: store the raw value, then run the handler. -/
def step (s : Slider) : Event → Slider
  | Event.lowDrag v => fromSliderOninput { s with fromSlider := rangeSanitize s.min s.max v }
  | Event.highDrag v => toSliderOninput { s with toSlider := rangeSanitize s.min s.max v }
  | Event.lowEdit v => fromInputOninput { s with fromInput := numberSanitize v }
  | Event.highEdit v => toInputOninput { s with toInput := numberSanitize v }

/-- A finite sequence of events, in order. -/
def run (s : Slider) (es : List Event) : Slider :=
  es.foldl step s

/-! ## The quantity stepper (`wireQuantityControls`) -/

/-- The operand `input.value || "1"`: the empty string is falsy. -/
def valueOrOne (value : String) : String :=
  if value = "" then "1" else value

/-- The click handler of `.qty-btn.minus`: the string assigned to `input.value`. -/
def minusClick (value : String) : String :=
  numToString (mathMax (JsNum.fin 1) (parseInt (valueOrOne value) - JsNum.fin 1))

/-- The click handler of `.qty-btn.plus`: the string assigned to `input.value`. -/
def plusClick (value : String) : String :=
  numToString (mathMax (JsNum.fin 1) (parseInt (valueOrOne value) + JsNum.fin 1))

/-- The slider of the specification's scenarios: track `0..1000`, all four
controls at `(200, 800)`, fill bar as the initial `fillSlider` call leaves it. -/
def scenario : Slider :=
  { min := 0, max := 1000, fromSlider := "200", toSlider := "800",
    fromInput := "200", toInput := "800", left := JsNum.fin 20, width := JsNum.fin 60 }

/-- A slider on track `0..1000` with all four controls at `(0, 50)`. -/
def narrowStart : Slider :=
  { min := 0, max := 1000, fromSlider := "0", toSlider := "50",
    fromInput := "0", toInput := "50", left := JsNum.fin 0, width := JsNum.fin 5 }

/-! ## Vocabulary of the statements -/

/-- The raw value an event carries. -/
def Event.raw : Event → String
  | Event.lowDrag v => v
  | Event.highDrag v => v
  | Event.lowEdit v => v
  | Event.highEdit v => v

/-- Whether the event is an edit of a text field (as opposed to a slider drag). -/
def Event.isEdit : Event → Bool
  | Event.lowDrag _ => false
  | Event.highDrag _ => false
  | Event.lowEdit _ => true
  | Event.highEdit _ => true

/-- An integer of magnitude at most `2^52`: sums and differences of two such
integers, and such an integer `± 100`, are exact in double arithmetic. -/
def Safe (i : Int) : Prop :=
  -4503599627370496 ≤ i ∧ i ≤ 4503599627370496

instance (i : Int) : Decidable (Safe i) :=
  inferInstanceAs (Decidable (-4503599627370496 ≤ i ∧ i ≤ 4503599627370496))

/-- An integer of magnitude at most `2^53 - 992`: it and its neighbours up to
`± 100` are doubles. -/
def Wide (i : Int) : Prop :=
  -9007199254740000 ≤ i ∧ i ≤ 9007199254740000

instance (i : Int) : Decidable (Wide i) :=
  inferInstanceAs (Decidable (-9007199254740000 ≤ i ∧ i ≤ 9007199254740000))

/-- The value a range control on track `mn..mx` keeps when the integer `x` is
stored into it. -/
def clampTrack (mn mx x : Int) : Int :=
  if x < mn then mn else if mn ≤ mx ∧ mx < x then mx else x

/-- The two sliders hold integers `from`, `to` with `to - from ≥ 100`. -/
def SliderGap (s : Slider) : Prop :=
  ∃ f t : Int, parseInt s.fromSlider = JsNum.fin f ∧ parseInt s.toSlider = JsNum.fin t ∧
    100 ≤ t - f

/-- Each slider holds the integer of its field, clamped to the track: the low
field holds `f`, the high field holds `t`. -/
def Views (s : Slider) (f t : Int) : Prop :=
  s.fromInput = intToString f ∧ s.fromSlider = intToString (clampTrack s.min s.max f) ∧
    s.toInput = intToString t ∧ s.toSlider = intToString (clampTrack s.min s.max t)

/-- The four views agree: low slider and low field hold the integer `f`, high
slider and high field hold the integer `t`. -/
def Synced (s : Slider) (f t : Int) : Prop :=
  s.fromSlider = intToString f ∧ s.fromInput = intToString f ∧
    s.toSlider = intToString t ∧ s.toInput = intToString t

/-- A slider on the track `0..10^22` with the sliders at `(0, 800)`. -/
def hugeTrack : Slider :=
  { min := 0, max := 10000000000000000000000, fromSlider := "0", toSlider := "800",
    fromInput := "0", toInput := "800", left := JsNum.fin 0, width := JsNum.fin 0 }


/-! ## Facts about digits and the conversions -/

theorem isDigit_digitChar (d : Nat) (h : d < 10) : isDigit (digitChar d) = true := by
  interval_cases d <;> decide

theorem digitVal_digitChar (d : Nat) (h : d < 10) : digitVal (digitChar d) = d := by
  interval_cases d <;> decide

theorem isWhiteSpace_of_isDigit (c : Char) (h : isDigit c = true) : isWhiteSpace c = false := by
  simp only [isDigit, Bool.and_eq_true, decide_eq_true_eq] at h
  simp only [isWhiteSpace, Bool.or_eq_false_iff, Bool.and_eq_false_iff, decide_eq_false_iff_not]
  omega

theorem digitsVal_append (l : List Char) (c : Char) :
    digitsVal (l ++ [c]) = digitsVal l * 10 + digitVal c := by
  simp [digitsVal, List.foldl_append]

theorem natDigits_isDigit (fuel n : Nat) : ∀ c ∈ natDigits fuel n, isDigit c = true := by
  induction fuel generalizing n with
  | zero => simp [natDigits]
  | succ k ih =>
    intro c hc
    unfold natDigits at hc
    split at hc
    · simp at hc
      subst hc
      exact isDigit_digitChar n (by assumption)
    · simp only [List.mem_append, List.mem_singleton] at hc
      rcases hc with hc | hc
      · exact ih _ c hc
      · subst hc
        exact isDigit_digitChar _ (Nat.mod_lt _ (by decide))

theorem natDigits_ne_nil (fuel n : Nat) : natDigits (fuel + 1) n ≠ [] := by
  unfold natDigits
  split <;> simp

theorem digitsVal_natDigits (fuel n : Nat) (h : n < fuel) : digitsVal (natDigits fuel n) = n := by
  induction fuel generalizing n with
  | zero => omega
  | succ k ih =>
    unfold natDigits
    split
    · simp [digitsVal, digitVal_digitChar n (by assumption)]
    · rw [digitsVal_append, ih (n / 10) (by omega), digitVal_digitChar _ (Nat.mod_lt _ (by decide))]
      omega

theorem splitSign_minus (cs : List Char) : splitSign ('-' :: cs) = (true, cs) := by
  simp [splitSign]

theorem splitSign_digit (c : Char) (cs : List Char) (hc : isDigit c = true) :
    splitSign (c :: cs) = (false, c :: cs) := by
  have h1 : c ≠ '-' := by rintro rfl; exact absurd hc (by decide)
  have h2 : c ≠ '+' := by rintro rfl; exact absurd hc (by decide)
  simp [splitSign, h1, h2]

/-- A non-empty run of digits read by `parseInt`, bare and after a minus sign. -/
theorem parseIntChars_digits (ds : List Char) (hne : ds ≠ [])
    (hd : ∀ c ∈ ds, isDigit c = true) :
    parseIntChars ds = JsNum.ofInt (digitsVal ds : Int) ∧
      parseIntChars ('-' :: ds) = JsNum.ofInt (-(digitsVal ds : Int)) := by
  have htw : ds.takeWhile isDigit = ds := List.takeWhile_eq_self_iff.mpr hd
  have hemp : ds.isEmpty = false := by cases ds <;> simp_all
  constructor
  · obtain ⟨c, cs, rfl⟩ := List.exists_cons_of_ne_nil hne
    have hc : isDigit c = true := hd c (List.mem_cons_self _ _)
    have hw : isWhiteSpace c = false := isWhiteSpace_of_isDigit c hc
    have hdw : (c :: cs).dropWhile isWhiteSpace = c :: cs := by simp [List.dropWhile_cons, hw]
    simp only [parseIntChars, hdw, splitSign_digit c cs hc, htw]
    simp
  · have hdw : ('-' :: ds).dropWhile isWhiteSpace = '-' :: ds := by
      rw [List.dropWhile_cons]; simp [show isWhiteSpace '-' = false by decide]
    simp only [parseIntChars, hdw, splitSign_minus, htw, hemp]
    simp

/-- The digits of an integer, as three facts used by every parser. -/
theorem intChars_cases (i : Int) :
    natDigits (i.natAbs + 1) i.natAbs ≠ [] ∧
    (∀ c ∈ natDigits (i.natAbs + 1) i.natAbs, isDigit c = true) ∧
    digitsVal (natDigits (i.natAbs + 1) i.natAbs) = i.natAbs :=
  ⟨natDigits_ne_nil _ _, natDigits_isDigit _ _, digitsVal_natDigits _ _ (Nat.lt_succ_self _)⟩

theorem parseInt_intToString (i : Int) : parseInt (intToString i) = JsNum.ofInt i := by
  obtain ⟨hne, hd, hv⟩ := intChars_cases i
  obtain ⟨h1, h2⟩ := parseIntChars_digits _ hne hd
  unfold parseInt intToString intChars
  split
  · rw [h2, hv]; congr 1; omega
  · rw [h1, hv]; congr 1; omega

theorem dropWhile_isWhiteSpace_of_head (c : Char) (cs : List Char)
    (hc : isWhiteSpace c = false) : (c :: cs).dropWhile isWhiteSpace = c :: cs := by
  simp [List.dropWhile_cons, hc]

theorem trimWhiteSpace_eq_self (l : List Char) (h : ∀ c ∈ l, isWhiteSpace c = false) :
    trimWhiteSpace l = l := by
  have key : ∀ m : List Char, (∀ c ∈ m, isWhiteSpace c = false) →
      m.dropWhile isWhiteSpace = m := by
    intro m hm
    cases m with
    | nil => rfl
    | cons c cs => exact dropWhile_isWhiteSpace_of_head c cs (hm c (List.mem_cons_self _ _))
  unfold trimWhiteSpace
  rw [key l h, key l.reverse (fun c hc => h c (List.mem_reverse.mp hc)), List.reverse_reverse]

theorem unsignedDecimal_digits (ds : List Char) (hne : ds ≠ [])
    (hd : ∀ c ∈ ds, isDigit c = true) :
    unsignedDecimal ds = some (digitsVal ds, 1) := by
  have htw : ds.takeWhile isDigit = ds := List.takeWhile_eq_self_iff.mpr hd
  have hdw : ds.dropWhile isDigit = [] := List.dropWhile_eq_nil_iff.mpr hd
  have hemp : ds.isEmpty = false := by cases ds <;> simp_all
  simp [unsignedDecimal, htw, hdw, hemp, exponentPart]

theorem strDecimalLiteral_digits (ds : List Char) (hne : ds ≠ [])
    (hd : ∀ c ∈ ds, isDigit c = true) :
    strDecimalLiteral ds = some (JsNum.ofInt (digitsVal ds : Int)) ∧
      strDecimalLiteral ('-' :: ds) = some (JsNum.ofInt (-(digitsVal ds : Int))) := by
  have hinf : ds ≠ ['I', 'n', 'f', 'i', 'n', 'i', 't', 'y'] := by
    rintro rfl
    exact absurd (hd 'I' (List.mem_cons_self _ _)) (by decide)
  have hu := unsignedDecimal_digits ds hne hd
  constructor
  · obtain ⟨c, cs, rfl⟩ := List.exists_cons_of_ne_nil hne
    have hc : isDigit c = true := hd c (List.mem_cons_self _ _)
    simp only [strDecimalLiteral, splitSign_digit c cs hc, if_neg hinf, hu]
    simp [JsNum.ofInt]
  · simp only [strDecimalLiteral, splitSign_minus, if_neg hinf, hu]
    simp [JsNum.ofInt]

theorem intChars_not_whiteSpace (i : Int) : ∀ c ∈ intChars i, isWhiteSpace c = false := by
  obtain ⟨_, hd, _⟩ := intChars_cases i
  intro c hc
  unfold intChars at hc
  split at hc
  · rcases List.mem_cons.mp hc with rfl | hc
    · decide
    · exact isWhiteSpace_of_isDigit c (hd c hc)
  · exact isWhiteSpace_of_isDigit c (hd c hc)

theorem intChars_isEmpty (i : Int) : (intChars i).isEmpty = false := by
  obtain ⟨hne, _, _⟩ := intChars_cases i
  unfold intChars
  split
  · rfl
  · cases h : natDigits (i.natAbs + 1) i.natAbs with
    | nil => exact absurd h hne
    | cons _ _ => rfl

theorem toNumber_intToString (i : Int) : toNumber (intToString i) = JsNum.ofInt i := by
  obtain ⟨hne, hd, hv⟩ := intChars_cases i
  obtain ⟨h1, h2⟩ := strDecimalLiteral_digits _ hne hd
  simp only [toNumber, intToString, trimWhiteSpace_eq_self _ (intChars_not_whiteSpace i),
    intChars_isEmpty, Bool.false_eq_true, if_false]
  by_cases hneg : i < 0
  · have hic : intChars i = '-' :: natDigits (i.natAbs + 1) i.natAbs := by
      simp [intChars, hneg]
    rw [hic, h2, hv]
    simp only
    congr 1; omega
  · have hic : intChars i = natDigits (i.natAbs + 1) i.natAbs := by
      simp [intChars, hneg]
    rw [hic, h1, hv]
    simp only
    congr 1; omega

theorem intToString_ne_empty (i : Int) : intToString i ≠ "" := by
  intro h
  have h2 : intChars i = [] := congrArg String.data h
  have := intChars_isEmpty i
  rw [h2] at this
  simp at this

/-! ## Facts about doubles that hold integers -/

theorem roundRatio_int (i : Int) (h1 : -9007199254740992 ≤ i) (h2 : i ≤ 9007199254740992) :
    roundRatio i 1 = JsNum.fin (i : ℚ) := by
  have hb : i.natAbs ≤ 9007199254740992 := by omega
  have hc : ¬ (9007199254740992 < i.natAbs) := by omega
  simp [roundRatio, hc]

theorem ofInt_exact (i : Int) (h1 : -9007199254740992 ≤ i) (h2 : i ≤ 9007199254740992) :
    JsNum.ofInt i = JsNum.fin (i : ℚ) :=
  roundRatio_int i h1 h2

theorem fin_ofNat_eq (n : Nat) [n.AtLeastTwo] :
    JsNum.fin (OfNat.ofNat n : ℚ) = JsNum.fin (((OfNat.ofNat n : Int)) : ℚ) := by
  simp

theorem fin_sub_int (a b : Int) (h1 : -9007199254740992 ≤ a - b) (h2 : a - b ≤ 9007199254740992) :
    JsNum.fin (a : ℚ) - JsNum.fin (b : ℚ) = JsNum.fin ((a - b : Int) : ℚ) := by
  show JsNum.sub (JsNum.fin (a : ℚ)) (JsNum.fin (b : ℚ)) = _
  simp only [JsNum.sub, Rat.intCast_num, Rat.intCast_den, Nat.cast_one, mul_one, Nat.mul_one]
  exact roundRatio_int (a - b) h1 h2

theorem fin_add_int (a b : Int) (h1 : -9007199254740992 ≤ a + b) (h2 : a + b ≤ 9007199254740992) :
    JsNum.fin (a : ℚ) + JsNum.fin (b : ℚ) = JsNum.fin ((a + b : Int) : ℚ) := by
  show JsNum.add (JsNum.fin (a : ℚ)) (JsNum.fin (b : ℚ)) = _
  simp only [JsNum.add, Rat.intCast_num, Rat.intCast_den, Nat.cast_one, mul_one, Nat.mul_one]
  exact roundRatio_int (a + b) h1 h2

theorem lt_int (a b : Int) : JsNum.lt (JsNum.fin (a : ℚ)) (JsNum.fin (b : ℚ)) = decide (a < b) := by
  simp [JsNum.lt]

theorem le_int (a b : Int) : JsNum.le (JsNum.fin (a : ℚ)) (JsNum.fin (b : ℚ)) = decide (a ≤ b) := by
  simp [JsNum.le]

theorem mathMin_int (a b : Int) :
    mathMin (JsNum.fin (a : ℚ)) (JsNum.fin (b : ℚ)) = JsNum.fin ((min a b : Int) : ℚ) := by
  simp only [mathMin, lt_int]
  by_cases h : b < a
  · simp [h, min_eq_right (le_of_lt h)]
  · simp [h, min_eq_left (not_lt.mp h)]

theorem mathMax_int (a b : Int) :
    mathMax (JsNum.fin (a : ℚ)) (JsNum.fin (b : ℚ)) = JsNum.fin ((max a b : Int) : ℚ) := by
  simp only [mathMax, lt_int]
  by_cases h : a < b
  · simp [h, max_eq_right (le_of_lt h)]
  · simp [h, max_eq_left (not_lt.mp h)]

theorem numToString_int (i : Int) (h1 : -9007199254740992 ≤ i) (h2 : i ≤ 9007199254740992) :
    numToString (JsNum.fin (i : ℚ)) = intToString i := by
  have hc : ¬ (9007199254740992 < i.natAbs) := by omega
  simp [numToString, hc]

/-! ## Facts about the controls -/

theorem htmlNumber_digits (ds : List Char) (hne : ds ≠ [])
    (hd : ∀ c ∈ ds, isDigit c = true) (hb : digitsVal ds ≤ 9007199254740992) :
    htmlNumber (String.mk ds) = some ((digitsVal ds : Int) : ℚ) ∧
      htmlNumber (String.mk ('-' :: ds)) = some ((-(digitsVal ds : Int) : Int) : ℚ) := by
  have htw : ds.takeWhile isDigit = ds := List.takeWhile_eq_self_iff.mpr hd
  have hdw : ds.dropWhile isDigit = [] := List.dropWhile_eq_nil_iff.mpr hd
  have hemp : ds.isEmpty = false := by cases ds <;> simp_all
  have r1 := roundRatio_int (digitsVal ds : Int) (by omega) (by omega)
  have r2 := roundRatio_int (-(digitsVal ds : Int)) (by omega) (by omega)
  constructor
  · obtain ⟨c, cs, rfl⟩ := List.exists_cons_of_ne_nil hne
    have hc : isDigit c = true := hd c (List.mem_cons_self _ _)
    have h1 : c ≠ '-' := by rintro rfl; exact absurd hc (by decide)
    simp only [htmlNumber, if_neg h1, htw, hdw, hemp, htmlExponent, List.append_nil,
      Bool.false_eq_true, Bool.and_false, Bool.false_and, if_false, Int.toNat_zero, pow_zero,
      mul_one, List.length_nil, neg_zero]
    rw [r1]
  · simp only [htmlNumber, if_true, htw, hdw, hemp, htmlExponent, List.append_nil,
      Bool.false_eq_true, Bool.and_false, Bool.false_and, if_false, Int.toNat_zero, pow_zero,
      mul_one, List.length_nil, neg_zero]
    rw [r2]

theorem htmlNumber_intToString (i : Int) (h1 : -9007199254740992 ≤ i)
    (h2 : i ≤ 9007199254740992) : htmlNumber (intToString i) = some (i : ℚ) := by
  obtain ⟨hne, hd, hv⟩ := intChars_cases i
  obtain ⟨k1, k2⟩ := htmlNumber_digits _ hne hd (by rw [hv]; omega)
  unfold intToString intChars
  split
  · rw [k2, hv]; congr 2; omega
  · rw [k1, hv]; congr 2; omega

theorem numberSanitize_intToString (i : Int) (h1 : -9007199254740992 ≤ i)
    (h2 : i ≤ 9007199254740992) : numberSanitize (intToString i) = intToString i := by
  simp [numberSanitize, htmlNumber_intToString i h1 h2]

theorem boundValue_safe (i : Int) (d : ℚ) (h : Safe i) : boundValue i d = (i : ℚ) := by
  obtain ⟨h1, h2⟩ := h
  simp [boundValue, ofInt_exact i (by omega) (by omega)]

theorem rangeNearest_int (mn mx x : Int) :
    rangeNearest (mn : ℚ) (mx : ℚ) (x : ℚ) = (clampTrack mn mx x, 1) := by
  simp only [rangeNearest, clampTrack, Rat.intCast_num, Rat.intCast_den, Nat.cast_one, mul_one,
    Nat.mul_one, Int.emod_one, if_true]
  split
  · rfl
  · split <;> rfl

theorem rangeSanitize_intToString (mn mx x : Int) (hmn : Safe mn) (hmx : Safe mx)
    (h1 : -9007199254740992 ≤ x) (h2 : x ≤ 9007199254740992) :
    rangeSanitize mn mx (intToString x) = intToString (clampTrack mn mx x) := by
  have hc1 : -9007199254740992 ≤ clampTrack mn mx x := by
    obtain ⟨a1, a2⟩ := hmn; obtain ⟨b1, b2⟩ := hmx
    unfold clampTrack; split
    · omega
    · split <;> omega
  have hc2 : clampTrack mn mx x ≤ 9007199254740992 := by
    obtain ⟨a1, a2⟩ := hmn; obtain ⟨b1, b2⟩ := hmx
    unfold clampTrack; split
    · omega
    · split <;> omega
  simp only [rangeSanitize, boundValue_safe mn 0 hmn, boundValue_safe mx 100 hmx,
    htmlNumber_intToString x h1 h2, rangeNearest_int, Rat.intCast_num, Rat.intCast_den,
    Nat.cast_one, mul_one]
  by_cases h : clampTrack mn mx x = x
  · simp [h]
  · rw [if_neg h, roundRatio_int _ hc1 hc2, numToString_int _ hc1 hc2]

theorem clampTrack_of_mem (mn mx x : Int) (h1 : mn ≤ x) (h2 : x ≤ mx) : clampTrack mn mx x = x := by
  unfold clampTrack
  rw [if_neg (by omega), if_neg (by omega)]

/-! ## The handlers on integer states -/

theorem Safe.wide {i : Int} (h : Safe i) : Wide i := by
  obtain ⟨h1, h2⟩ := h
  exact ⟨by omega, by omega⟩

theorem clampTrack_wide (mn mx x : Int) (hmn : Safe mn) (hmx : Safe mx) (hx : Wide x) :
    Wide (clampTrack mn mx x) := by
  obtain ⟨a1, a2⟩ := hmn; obtain ⟨b1, b2⟩ := hmx; obtain ⟨c1, c2⟩ := hx
  unfold clampTrack; split
  · exact ⟨by omega, by omega⟩
  · split
    · exact ⟨by omega, by omega⟩
    · exact ⟨by omega, by omega⟩

theorem parseInt_wide (i : Int) (h : Wide i) : parseInt (intToString i) = JsNum.fin (i : ℚ) := by
  obtain ⟨h1, h2⟩ := h
  rw [parseInt_intToString, ofInt_exact i (by omega) (by omega)]

theorem toNumber_wide (i : Int) (h : Wide i) : toNumber (intToString i) = JsNum.fin (i : ℚ) := by
  obtain ⟨h1, h2⟩ := h
  rw [toNumber_intToString, ofInt_exact i (by omega) (by omega)]

theorem setFromSlider_int (s : Slider) (x : Int) (hmn : Safe s.min) (hmx : Safe s.max)
    (hx : Wide x) :
    s.setFromSlider (JsNum.fin (x : ℚ)) =
      { s with fromSlider := intToString (clampTrack s.min s.max x) } := by
  obtain ⟨h1, h2⟩ := hx
  simp only [Slider.setFromSlider, numToString_int x (by omega) (by omega),
    rangeSanitize_intToString s.min s.max x hmn hmx (by omega) (by omega)]

theorem setToSlider_int (s : Slider) (x : Int) (hmn : Safe s.min) (hmx : Safe s.max)
    (hx : Wide x) :
    s.setToSlider (JsNum.fin (x : ℚ)) =
      { s with toSlider := intToString (clampTrack s.min s.max x) } := by
  obtain ⟨h1, h2⟩ := hx
  simp only [Slider.setToSlider, numToString_int x (by omega) (by omega),
    rangeSanitize_intToString s.min s.max x hmn hmx (by omega) (by omega)]

theorem setFromInput_int (s : Slider) (x : Int) (hx : Wide x) :
    s.setFromInput (JsNum.fin (x : ℚ)) = { s with fromInput := intToString x } := by
  obtain ⟨h1, h2⟩ := hx
  simp only [Slider.setFromInput, numToString_int x (by omega) (by omega),
    numberSanitize_intToString x (by omega) (by omega)]

theorem setToInput_int (s : Slider) (x : Int) (hx : Wide x) :
    s.setToInput (JsNum.fin (x : ℚ)) = { s with toInput := intToString x } := by
  obtain ⟨h1, h2⟩ := hx
  simp only [Slider.setToInput, numToString_int x (by omega) (by omega),
    numberSanitize_intToString x (by omega) (by omega)]

theorem fin_hundred : JsNum.fin (100 : ℚ) = JsNum.fin ((100 : Int) : ℚ) := by
  norm_num

theorem fin_one : JsNum.fin (1 : ℚ) = JsNum.fin ((1 : Int) : ℚ) := by
  norm_num

theorem Safe.add_hundred {i : Int} (h : Safe i) : Wide (i + 100) ∧ Wide (i - 100) := by
  obtain ⟨h1, h2⟩ := h
  exact ⟨⟨by omega, by omega⟩, ⟨by omega, by omega⟩⟩

theorem clampTrack_safe (mn mx x : Int) (hmn : Safe mn) (hmx : Safe mx) (hx : Safe x) :
    Safe (clampTrack mn mx x) := by
  unfold clampTrack; split
  · exact hmn
  · split
    · exact hmx
    · exact hx

theorem fromSliderOninput_ints (s : Slider) (v b : Int) (hmn : Safe s.min) (hmx : Safe s.max)
    (hv : Wide v) (hb : Safe b)
    (hfs : s.fromSlider = intToString v) (hts : s.toSlider = intToString b) :
    fromSliderOninput s =
      fillSlider { s with fromSlider := intToString (clampTrack s.min s.max (min v (b - 100))),
                          fromInput := intToString (min v (b - 100)) } := by
  obtain ⟨v1, v2⟩ := hv
  obtain ⟨b1, b2⟩ := hb
  have hw : Wide (min v (b - 100)) := by
    rcases min_choice v (b - 100) with h | h <;> rw [h] <;> exact ⟨by omega, by omega⟩
  have p1 : parseInt s.fromSlider = JsNum.fin (v : ℚ) := by
    rw [hfs]; exact parseInt_wide v ⟨by omega, by omega⟩
  have p2 : parseInt s.toSlider = JsNum.fin (b : ℚ) := by
    rw [hts]; exact parseInt_wide b ⟨by omega, by omega⟩
  unfold fromSliderOninput
  simp only [p1, p2, fin_hundred, fin_sub_int b 100 (by omega) (by omega), mathMin_int]
  rw [setFromSlider_int s _ hmn hmx hw, setFromInput_int _ _ hw]

theorem toSliderOninput_ints (s : Slider) (v a : Int) (hmn : Safe s.min) (hmx : Safe s.max)
    (hv : Wide v) (ha : Safe a)
    (hts : s.toSlider = intToString v) (hfs : s.fromSlider = intToString a) :
    toSliderOninput s =
      fillSlider { s with toSlider := intToString (clampTrack s.min s.max (max v (a + 100))),
                          toInput := intToString (max v (a + 100)) } := by
  obtain ⟨v1, v2⟩ := hv
  obtain ⟨a1, a2⟩ := ha
  have hw : Wide (max v (a + 100)) := by
    rcases max_choice v (a + 100) with h | h <;> rw [h] <;> exact ⟨by omega, by omega⟩
  have p1 : parseInt s.toSlider = JsNum.fin (v : ℚ) := by
    rw [hts]; exact parseInt_wide v ⟨by omega, by omega⟩
  have p2 : parseInt s.fromSlider = JsNum.fin (a : ℚ) := by
    rw [hfs]; exact parseInt_wide a ⟨by omega, by omega⟩
  unfold toSliderOninput
  simp only [p1, p2, fin_hundred, fin_add_int a 100 (by omega) (by omega), mathMax_int]
  rw [setToSlider_int s _ hmn hmx hw, setToInput_int _ _ hw]

theorem controlFromInput_ints (s : Slider) (f t : Int) (hmn : Safe s.min) (hmx : Safe s.max)
    (hf : Wide f) (ht : Wide t)
    (hfi : s.fromInput = intToString f) (hti : s.toInput = intToString t) :
    controlFromInput s =
      if f > t then
        { fillSlider s with fromSlider := intToString (clampTrack s.min s.max t),
                            fromInput := intToString t }
      else { fillSlider s with fromSlider := intToString (clampTrack s.min s.max f) } := by
  have p1 : parseInt s.fromInput = JsNum.fin (f : ℚ) := by rw [hfi]; exact parseInt_wide f hf
  have p2 : parseInt s.toInput = JsNum.fin (t : ℚ) := by rw [hti]; exact parseInt_wide t ht
  unfold controlFromInput
  simp only [getParsedValue, p1, p2, jsGt, lt_int]
  by_cases h : t < f
  · rw [if_pos (by simpa using h), if_pos h,
      setFromSlider_int (fillSlider s) _ hmn hmx ht,
      setFromInput_int _ _ ht]
    rfl
  · rw [if_neg (by simpa using h), if_neg h, setFromSlider_int (fillSlider s) _ hmn hmx hf]
    rfl

theorem controlToInput_ints (s : Slider) (f t : Int) (hmn : Safe s.min) (hmx : Safe s.max)
    (hf : Wide f) (ht : Wide t)
    (hfi : s.fromInput = intToString f) (hti : s.toInput = intToString t) :
    controlToInput s =
      if f ≤ t then { fillSlider s with toSlider := intToString (clampTrack s.min s.max t) }
      else
        { fillSlider s with toInput := intToString f,
                            toSlider := intToString (clampTrack s.min s.max f) } := by
  have p1 : parseInt s.fromInput = JsNum.fin (f : ℚ) := by rw [hfi]; exact parseInt_wide f hf
  have p2 : parseInt s.toInput = JsNum.fin (t : ℚ) := by rw [hti]; exact parseInt_wide t ht
  unfold controlToInput
  simp only [getParsedValue, p1, p2, jsLe, le_int]
  by_cases h : f ≤ t
  · rw [if_pos (by simpa using h), if_pos h, setToSlider_int (fillSlider s) _ hmn hmx ht]
    rfl
  · rw [if_neg (by simpa using h), if_neg h, setToInput_int (fillSlider s) _ hf,
      setToSlider_int { fillSlider s with toInput := intToString f } f hmn hmx hf]
    rfl

theorem step_lowDrag_ints (s : Slider) (v b : Int) (hmn : Safe s.min) (hmx : Safe s.max)
    (hv : Safe v) (hb : Safe b) (hts : s.toSlider = intToString b) :
    step s (Event.lowDrag (intToString v)) =
      fillSlider { s with
        fromSlider := intToString (clampTrack s.min s.max (min (clampTrack s.min s.max v) (b - 100))),
        fromInput := intToString (min (clampTrack s.min s.max v) (b - 100)) } := by
  have hr := rangeSanitize_intToString s.min s.max v hmn hmx (by have := hv.1; omega)
    (by have := hv.2; omega)
  have h := fromSliderOninput_ints { s with fromSlider := intToString (clampTrack s.min s.max v) }
    (clampTrack s.min s.max v) b hmn hmx (clampTrack_safe _ _ _ hmn hmx hv).wide hb rfl hts
  simp only [step, hr]
  rw [h]

theorem step_highDrag_ints (s : Slider) (v a : Int) (hmn : Safe s.min) (hmx : Safe s.max)
    (hv : Safe v) (ha : Safe a) (hfs : s.fromSlider = intToString a) :
    step s (Event.highDrag (intToString v)) =
      fillSlider { s with
        toSlider := intToString (clampTrack s.min s.max (max (clampTrack s.min s.max v) (a + 100))),
        toInput := intToString (max (clampTrack s.min s.max v) (a + 100)) } := by
  have hr := rangeSanitize_intToString s.min s.max v hmn hmx (by have := hv.1; omega)
    (by have := hv.2; omega)
  have h := toSliderOninput_ints { s with toSlider := intToString (clampTrack s.min s.max v) }
    (clampTrack s.min s.max v) a hmn hmx (clampTrack_safe _ _ _ hmn hmx hv).wide ha rfl hfs
  simp only [step, hr]
  rw [h]

theorem step_lowEdit_ints (s : Slider) (v t : Int) (hmn : Safe s.min) (hmx : Safe s.max)
    (hv : Wide v) (ht : Wide t) (hti : s.toInput = intToString t) :
    step s (Event.lowEdit (intToString v)) =
      if v > t then
        { fillSlider { s with fromInput := intToString v } with
          fromSlider := intToString (clampTrack s.min s.max t), fromInput := intToString t }
      else
        { fillSlider { s with fromInput := intToString v } with
          fromSlider := intToString (clampTrack s.min s.max v) } := by
  have hr := numberSanitize_intToString v (by have := hv.1; omega) (by have := hv.2; omega)
  have h := controlFromInput_ints { s with fromInput := intToString v } v t hmn hmx hv ht rfl hti
  simp only [step, hr, fromInputOninput]
  rw [h]

theorem step_highEdit_ints (s : Slider) (v f : Int) (hmn : Safe s.min) (hmx : Safe s.max)
    (hv : Wide v) (hf : Wide f) (hfi : s.fromInput = intToString f) :
    step s (Event.highEdit (intToString v)) =
      if f ≤ v then
        { fillSlider { s with toInput := intToString v } with
          toSlider := intToString (clampTrack s.min s.max v) }
      else
        { fillSlider { s with toInput := intToString v } with
          toInput := intToString f, toSlider := intToString (clampTrack s.min s.max f) } := by
  have hr := numberSanitize_intToString v (by have := hv.1; omega) (by have := hv.2; omega)
  have h := controlToInput_ints { s with toInput := intToString v } f v hmn hmx hf hv hfi rfl
  simp only [step, hr, toInputOninput]
  rw [h]

theorem run_append_single (s : Slider) (es : List Event) (e : Event) :
    run s (es ++ [e]) = step (run s es) e := by
  simp [run, List.foldl_append]

theorem run_cons (s : Slider) (e : Event) (es : List Event) :
    run s (e :: es) = run (step s e) es := by
  simp [run]

theorem step_min (s : Slider) (e : Event) : (step s e).min = s.min := by
  cases e <;> simp only [step, fromSliderOninput, toSliderOninput, fromInputOninput,
    toInputOninput, controlFromInput, controlToInput, getParsedValue, fillSlider,
    Slider.setFromSlider, Slider.setToSlider, Slider.setFromInput, Slider.setToInput] <;>
    (try split) <;> rfl

theorem step_max (s : Slider) (e : Event) : (step s e).max = s.max := by
  cases e <;> simp only [step, fromSliderOninput, toSliderOninput, fromInputOninput,
    toInputOninput, controlFromInput, controlToInput, getParsedValue, fillSlider,
    Slider.setFromSlider, Slider.setToSlider, Slider.setFromInput, Slider.setToInput] <;>
    (try split) <;> rfl

theorem run_min (s : Slider) (es : List Event) : (run s es).min = s.min := by
  induction es generalizing s with
  | nil => rfl
  | cons e es ih => rw [run_cons, ih, step_min]

theorem run_max (s : Slider) (es : List Event) : (run s es).max = s.max := by
  induction es generalizing s with
  | nil => rfl
  | cons e es ih => rw [run_cons, ih, step_max]

/-! ## Bounds on rounding -/

theorem bitLen_zero (fuel : Nat) : bitLen fuel 0 = 0 := by
  cases fuel <;> simp [bitLen]

theorem bitLen_bounds (fuel : Nat) : ∀ n : Nat, n ≤ fuel →
    n < 2 ^ bitLen fuel n ∧ (0 < n → 2 ^ (bitLen fuel n - 1) ≤ n) := by
  induction fuel with
  | zero =>
    intro n hn
    have : n = 0 := by omega
    subst this
    simp [bitLen]
  | succ k ih =>
    intro n hn
    by_cases h0 : n = 0
    · subst h0
      simp [bitLen]
    · have hb : bitLen (k + 1) n = bitLen k (n / 2) + 1 := by simp [bitLen, h0]
      obtain ⟨i1, i2⟩ := ih (n / 2) (by omega)
      rw [hb]
      constructor
      · rw [pow_succ]; omega
      · intro _
        by_cases h2 : n / 2 = 0
        · rw [h2, bitLen_zero]
          simp
          omega
        · have i3 := i2 (by omega)
          have hpos : 0 < bitLen k (n / 2) := by
            by_contra hc
            have : bitLen k (n / 2) = 0 := by omega
            rw [this] at i1
            simp at i1
            omega
          have : bitLen k (n / 2) + 1 - 1 = (bitLen k (n / 2) - 1) + 1 := by omega
          rw [this, pow_succ]
          omega

theorem bits_bounds (n : Nat) : n < 2 ^ bits n ∧ (0 < n → 2 ^ (bits n - 1) ≤ n) :=
  bitLen_bounds n n (le_refl n)

/-- A ratio below `2^53` has binary exponent at most `52`. -/
theorem binaryExponent_le (n d : Nat) (h : n < d * 2 ^ 53) : binaryExponent n d ≤ 52 := by
  by_contra hc
  have hk : 53 ≤ binaryExponent n d := by omega
  unfold binaryExponent at hk
  obtain ⟨n1, n2⟩ := bits_bounds n
  obtain ⟨d1, _⟩ := bits_bounds d
  simp only at hk
  split at hk
  · rename_i hcond
    obtain ⟨j, hj⟩ : ∃ j : Nat, (bits n : Int) - (bits d : Int) = (j : Int) :=
      ⟨((bits n : Int) - (bits d : Int)).toNat, by omega⟩
    rw [hj] at hcond hk
    simp only [Int.toNat_ofNat, Int.toNat_neg_nat, pow_zero, mul_one] at hcond
    have hj53 : 53 ≤ j := by omega
    have : d * 2 ^ 53 ≤ d * 2 ^ j :=
      Nat.mul_le_mul_left d (Nat.pow_le_pow_right (by decide) hj53)
    omega
  · have hb : bits d + 54 ≤ bits n := by omega
    have hn0 : 0 < n := by
      by_contra h0
      have : n = 0 := by omega
      subst this
      have : bits 0 = 0 := by simp [bits, bitLen]
      omega
    have e1 := n2 hn0
    have e2 : d * 2 ^ 53 < 2 ^ bits d * 2 ^ 53 := by
      exact Nat.mul_lt_mul_of_pos_right d1 (by positivity)
    have e3 : 2 ^ bits d * 2 ^ 53 = 2 ^ (bits d + 53) := by rw [pow_add]
    have e4 : 2 ^ (bits d + 53) ≤ 2 ^ (bits n - 1) :=
      Nat.pow_le_pow_right (by decide) (by omega)
    omega

theorem roundHalfEven_le (n d M : Nat) (hd : 0 < d) (h : n ≤ M * d) : roundHalfEven n d ≤ M := by
  have hq : n / d ≤ M := by
    calc n / d ≤ M * d / d := Nat.div_le_div_right h
      _ = M := Nat.mul_div_cancel _ hd
  have hlt : n / d < M ∨ n / d = M := by omega
  have hmod := Nat.mod_add_div n d
  unfold roundHalfEven
  simp only
  rcases hlt with hlt | heq
  · split_ifs <;> omega
  · have hr : n % d = 0 := by
      have : d * (n / d) = M * d := by rw [heq, Nat.mul_comm]
      omega
    rw [hr]
    simp [hd, heq]

/-- Rounding a ratio in `[0, N]`, `N ≤ 2^53`, gives a finite double in `[0, N]`. -/
theorem roundRatio_bounds (n : Int) (d N : Nat) (hd : 0 < d) (h0 : 0 ≤ n)
    (hN : n ≤ (N : Int) * (d : Int)) (hN53 : N ≤ 9007199254740992) :
    ∃ r : ℚ, roundRatio n d = JsNum.fin r ∧ 0 ≤ r ∧ r ≤ (N : ℚ) := by
  have hdz : (0 : Int) < (d : Int) := by exact_mod_cast hd
  unfold roundRatio
  rw [if_neg (by omega)]
  split
  · refine ⟨((n / (d : Int) : Int) : ℚ), rfl, ?_, ?_⟩
    · exact_mod_cast Int.ediv_nonneg h0 (le_of_lt hdz)
    · exact_mod_cast Int.ediv_le_of_le_mul hdz hN
  · rename_i hfast
    obtain ⟨m, rfl⟩ : ∃ m : Nat, n = (m : Int) := ⟨n.toNat, by omega⟩
    have hmN : m ≤ N * d := by exact_mod_cast hN
    have hlt : m < d * 2 ^ 53 := by
      by_contra hc
      have h1 : N * d ≤ 9007199254740992 * d := Nat.mul_le_mul_right d hN53
      have h2 : m = 9007199254740992 * d := by
        have : (2 : Nat) ^ 53 = 9007199254740992 := by norm_num
        rw [this] at hc
        have h3 : d * 9007199254740992 = 9007199254740992 * d := Nat.mul_comm _ _
        omega
      apply hfast
      rw [h2]
      constructor
      · push_cast
        exact Int.mul_emod_left _ _
      · push_cast
        rw [Int.mul_ediv_cancel _ (by omega)]
        norm_num
    have hk := binaryExponent_le m d hlt
    have hneg : decide ((m : Int) < 0) = false := by simp
    simp only [Int.natAbs_ofNat, hneg]
    unfold roundNearest
    simp only
    generalize binaryExponent m d = k at hk
    obtain ⟨E, hE⟩ : ∃ E : Nat, max (k - 52) (-1074) = -(E : Int) :=
      ⟨(-(max (k - 52) (-1074))).toNat, by omega⟩
    rw [hE]
    simp only [neg_neg, Int.toNat_ofNat, Int.toNat_neg_nat, pow_zero, mul_one]
    rw [if_neg (by omega)]
    simp only [Bool.false_eq_true, if_false]
    have hm : roundHalfEven (m * 2 ^ E) d ≤ N * 2 ^ E :=
      roundHalfEven_le _ _ _ hd (by
        calc m * 2 ^ E ≤ N * d * 2 ^ E := Nat.mul_le_mul_right _ hmN
          _ = N * 2 ^ E * d := by ring)
    refine ⟨_, rfl, ?_, ?_⟩
    · rw [Rat.mkRat_eq_div]
      positivity
    · rw [Rat.mkRat_eq_div]
      have hp : (0 : ℚ) < ((2 ^ E : Nat) : ℚ) := by positivity
      rw [div_le_iff₀ hp]
      exact_mod_cast hm

theorem clampTrack_eq (mn mx x : Int) (h : mn ≤ mx) : clampTrack mn mx x = max mn (min x mx) := by
  unfold clampTrack
  split
  · omega
  · split <;> omega

/-! ## The fill bar after a text edit -/

/-- C3 at its failing inputs, on track `0..1000` from `(200, 800)`.  Editing the
low field to `900` snaps the low field and slider to `800`, yet the fill bar is
`left = 90`, `width = -10` (the projection of the corrected range is `left = 80`,
`width = 0`).  Editing the high field to `50` snaps the high field and slider to
`200`, yet the fill bar is `left = 20`, `width = -15` (not `width = 0`). -/
theorem text_edit_fill_before_snap :
    ((step scenario (Event.lowEdit "900")).fromInput = "800" ∧
     (step scenario (Event.lowEdit "900")).fromSlider = "800" ∧
     (step scenario (Event.lowEdit "900")).toInput = "800" ∧
     (step scenario (Event.lowEdit "900")).left = JsNum.fin 90 ∧
     (step scenario (Event.lowEdit "900")).width = JsNum.fin (-10)) ∧
    ((step scenario (Event.highEdit "50")).fromInput = "200" ∧
     (step scenario (Event.highEdit "50")).toInput = "200" ∧
     (step scenario (Event.highEdit "50")).toSlider = "200" ∧
     (step scenario (Event.highEdit "50")).left = JsNum.fin 20 ∧
     (step scenario (Event.highEdit "50")).width = JsNum.fin (-15)) := by
  refine ⟨⟨?_, ?_, ?_, ?_, ?_⟩, ⟨?_, ?_, ?_, ?_, ?_⟩⟩ <;> decide

/-! ## Slider drags -/

/-- What a sequence of slider drags preserves: both sliders hold integers
within the track, at least `100` apart. -/
theorem run_drags_gap (s : Slider) (es : List Event)
    (hmn : Safe s.min) (hmx : Safe s.max)
    (hs : ∃ a b : Int, s.fromSlider = intToString a ∧ s.toSlider = intToString b ∧
      s.min ≤ a ∧ b ≤ s.max ∧ 100 ≤ b - a)
    (hes : ∀ e ∈ es, e.isEdit = false ∧ ∃ w : Int, Safe w ∧ e.raw = intToString w) :
    ∃ a b : Int, (run s es).fromSlider = intToString a ∧ (run s es).toSlider = intToString b ∧
      s.min ≤ a ∧ b ≤ s.max ∧ 100 ≤ b - a := by
  induction es using List.reverseRecOn with
  | nil => simpa [run] using hs
  | append_singleton es e ih =>
    obtain ⟨a, b, ha, hb, h1, h2, h3⟩ := ih (fun x hx => hes x (List.mem_append_left _ hx))
    obtain ⟨hk, w, hw, hraw⟩ := hes e (by simp)
    have hmn1 : Safe (run s es).min := by rw [run_min]; exact hmn
    have hmx1 : Safe (run s es).max := by rw [run_max]; exact hmx
    have sa : Safe a := ⟨by have := hmn.1; omega, by have := hmx.2; omega⟩
    have sb : Safe b := ⟨by have := hmn.1; omega, by have := hmx.2; omega⟩
    have htr : s.min ≤ s.max := by omega
    rw [run_append_single]
    cases e with
    | lowDrag r =>
      simp only [Event.raw] at hraw
      subst hraw
      rw [step_lowDrag_ints _ w b hmn1 hmx1 hw sb hb, run_min, run_max]
      refine ⟨_, b, rfl, hb, ?_, h2, ?_⟩ <;>
        simp only [clampTrack_eq _ _ _ htr] <;> omega
    | highDrag r =>
      simp only [Event.raw] at hraw
      subst hraw
      rw [step_highDrag_ints _ w a hmn1 hmx1 hw sa ha, run_min, run_max]
      refine ⟨a, _, ha, rfl, h1, ?_, ?_⟩ <;>
        simp only [clampTrack_eq _ _ _ htr] <;> omega
    | lowEdit r => simp [Event.isEdit] at hk
    | highEdit r => simp [Event.isEdit] at hk

/-- C1, as stated, fails: on track `0..1000` with the sliders at `(0, 50)`, a
low-slider drag to `0` computes `min(0, 50 - 100) = -50`, the range control
keeps `0`, and the sliders end at `(0, 50)` with `to - from = 50 < 100`. -/
theorem slider_gap_counterexample :
    (narrowStart.min = 0 ∧ narrowStart.max = 1000 ∧
      narrowStart.fromSlider = "0" ∧ narrowStart.toSlider = "50") ∧
    (step narrowStart (Event.lowDrag "0")).fromSlider = "0" ∧
    (step narrowStart (Event.lowDrag "0")).toSlider = "50" ∧
    ¬ SliderGap (step narrowStart (Event.lowDrag "0")) := by
  have e1 : (step narrowStart (Event.lowDrag "0")).fromSlider = "0" := by decide
  have e2 : (step narrowStart (Event.lowDrag "0")).toSlider = "50" := by decide
  refine ⟨⟨rfl, rfl, rfl, rfl⟩, e1, e2, ?_⟩
  rintro ⟨f, t, hf, ht, h⟩
  rw [e1] at hf
  rw [e2] at ht
  have p1 : parseInt "0" = JsNum.fin ((0 : Int) : ℚ) := by decide
  have p2 : parseInt "50" = JsNum.fin ((50 : Int) : ℚ) := by decide
  rw [p1] at hf
  rw [p2] at ht
  have f0 : (0 : Int) = f := by exact_mod_cast JsNum.fin.inj hf
  have t0 : (50 : Int) = t := by exact_mod_cast JsNum.fin.inj ht
  omega

/-- C1, amended.  On a track `min ≤ max` with sliders at integers `(from, to)`
and an integer raw value, all of magnitude at most `2^52`: after the low-slider
handler `to - from ≥ 100` holds provided `min ≤ to - 100`, and after the
high-slider handler provided `from + 100 ≤ max`; hence from a state with
`min ≤ from`, `to ≤ max` and `to - from ≥ 100` it holds after every event of
every finite sequence of slider drags. -/
theorem slider_gap_amended (s : Slider) (a b v : Int)
    (hmn : Safe s.min) (hmx : Safe s.max) (htrack : s.min ≤ s.max)
    (ha : Safe a) (hb : Safe b) (hv : Safe v)
    (hfs : s.fromSlider = intToString a) (hts : s.toSlider = intToString b) :
    (s.min ≤ b - 100 → SliderGap (step s (Event.lowDrag (intToString v)))) ∧
    (a + 100 ≤ s.max → SliderGap (step s (Event.highDrag (intToString v)))) ∧
    (s.min ≤ a → b ≤ s.max → 100 ≤ b - a →
      ∀ (es : List Event) (e : Event),
        (∀ x ∈ es ++ [e], x.isEdit = false ∧ ∃ w : Int, Safe w ∧ x.raw = intToString w) →
        SliderGap (run s (es ++ [e]))) := by
  have gap : ∀ (s1 : Slider) (x y : Int), Safe x → Safe y → s1.fromSlider = intToString x →
      s1.toSlider = intToString y → 100 ≤ y - x → SliderGap s1 := by
    intro s1 x y hx hy h1 h2 h3
    exact ⟨x, y, by rw [h1]; exact parseInt_wide x hx.wide,
      by rw [h2]; exact parseInt_wide y hy.wide, h3⟩
  obtain ⟨m1, m2⟩ := hmn
  obtain ⟨x1, x2⟩ := hmx
  refine ⟨?_, ?_, ?_⟩
  · intro h
    have hstep := step_lowDrag_ints s v b ⟨m1, m2⟩ ⟨x1, x2⟩ hv hb hts
    have hc : clampTrack s.min s.max (min (clampTrack s.min s.max v) (b - 100))
        = min (clampTrack s.min s.max v) (b - 100) := by
      simp only [clampTrack_eq _ _ _ htrack]; omega
    rw [hc] at hstep
    rw [hstep]
    refine gap _ (min (clampTrack s.min s.max v) (b - 100)) b ?_ hb rfl hts ?_
    · simp only [clampTrack_eq _ _ _ htrack]
      exact ⟨by omega, by omega⟩
    · omega
  · intro h
    have hstep := step_highDrag_ints s v a ⟨m1, m2⟩ ⟨x1, x2⟩ hv ha hfs
    have hc : clampTrack s.min s.max (max (clampTrack s.min s.max v) (a + 100))
        = max (clampTrack s.min s.max v) (a + 100) := by
      simp only [clampTrack_eq _ _ _ htrack]; omega
    rw [hc] at hstep
    rw [hstep]
    refine gap _ a (max (clampTrack s.min s.max v) (a + 100)) ha ?_ hfs rfl ?_
    · simp only [clampTrack_eq _ _ _ htrack]
      exact ⟨by omega, by omega⟩
    · omega
  · intro h1 h2 h3 es e hes
    obtain ⟨a1, b1, ha1, hb1, k1, k2, k3⟩ :=
      run_drags_gap s (es ++ [e]) ⟨m1, m2⟩ ⟨x1, x2⟩ ⟨a, b, hfs, hts, h1, h2, h3⟩ hes
    exact gap _ a1 b1 ⟨by omega, by omega⟩ ⟨by omega, by omega⟩ ha1 hb1 k3

/-- C1, amended, at a concrete input: the scenario slider `(200, 800)` on track
`0..1000`, raw value `750`, and the drag sequence high `250`, low `900`. -/
theorem slider_gap_amended_witness :
    ((0 : Int) ≤ 800 - 100 → SliderGap (step scenario (Event.lowDrag (intToString 750)))) ∧
    ((200 : Int) + 100 ≤ 1000 → SliderGap (step scenario (Event.highDrag (intToString 750)))) ∧
    ((0 : Int) ≤ 200 → (800 : Int) ≤ 1000 → (100 : Int) ≤ 800 - 200 →
      ∀ (es : List Event) (e : Event),
        (∀ x ∈ es ++ [e], x.isEdit = false ∧ ∃ w : Int, Safe w ∧ x.raw = intToString w) →
        SliderGap (run scenario (es ++ [e]))) :=
  slider_gap_amended scenario 200 800 750 (by decide) (by decide) (by decide) (by decide)
    (by decide) (by decide) rfl rfl

/-- C2, as stated, fails: on track `0..1000` with the sliders at `(0, 50)`, a
low-slider drag to `0` leaves the low slider at `0`, not at
`min(0, 50 - 100) = -50`; only the low field gets `-50`. -/
theorem slider_drag_clamp_counterexample :
    (narrowStart.fromSlider = intToString 0 ∧ narrowStart.toSlider = intToString 50) ∧
    (step narrowStart (Event.lowDrag (intToString 0))).fromSlider = "0" ∧
    (step narrowStart (Event.lowDrag (intToString 0))).fromInput = "-50" ∧
    (step narrowStart (Event.lowDrag (intToString 0))).fromSlider
      ≠ intToString (min 0 (50 - 100)) := by
  refine ⟨⟨?_, ?_⟩, ?_, ?_, ?_⟩ <;> decide

/-- C2, amended.  With integer sliders `(from, to)`, an integer raw value `v`
and track bounds, all of magnitude at most `2^52`: the range control first
clamps `v` to the track; the low-slider handler sets the low field to exactly
`min v (to - 100)` and the low slider to that value clamped to the track, so
both hold `min v (to - 100)` whenever that value is within the track; the
high-slider handler sets the high field to exactly `max v (from + 100)` and the
high slider to that value clamped to the track.  On track `0..1000` from
`(200, 800)`: a low drag to `750` gives `from = 700`, fill bar `left = 70`,
`width = 10`; a high drag to `250` gives `to = 300`, `left = 20`, `width = 10`. -/
theorem slider_drag_clamp_amended (s : Slider) (a b v : Int)
    (hmn : Safe s.min) (hmx : Safe s.max) (ha : Safe a) (hb : Safe b) (hv : Safe v)
    (hfs : s.fromSlider = intToString a) (hts : s.toSlider = intToString b) :
    ((step s (Event.lowDrag (intToString v))).fromInput
        = intToString (min (clampTrack s.min s.max v) (b - 100)) ∧
     (step s (Event.lowDrag (intToString v))).fromSlider
        = intToString (clampTrack s.min s.max (min (clampTrack s.min s.max v) (b - 100))) ∧
     (s.min ≤ v → v ≤ s.max → s.min ≤ b - 100 →
        (step s (Event.lowDrag (intToString v))).fromInput = intToString (min v (b - 100)) ∧
        (step s (Event.lowDrag (intToString v))).fromSlider = intToString (min v (b - 100)))) ∧
    ((step s (Event.highDrag (intToString v))).toInput
        = intToString (max (clampTrack s.min s.max v) (a + 100)) ∧
     (step s (Event.highDrag (intToString v))).toSlider
        = intToString (clampTrack s.min s.max (max (clampTrack s.min s.max v) (a + 100))) ∧
     (s.min ≤ v → v ≤ s.max → a + 100 ≤ s.max →
        (step s (Event.highDrag (intToString v))).toInput = intToString (max v (a + 100)) ∧
        (step s (Event.highDrag (intToString v))).toSlider = intToString (max v (a + 100)))) ∧
    ((step scenario (Event.lowDrag "750")).fromSlider = "700" ∧
     (step scenario (Event.lowDrag "750")).fromInput = "700" ∧
     (step scenario (Event.lowDrag "750")).left = JsNum.fin 70 ∧
     (step scenario (Event.lowDrag "750")).width = JsNum.fin 10) ∧
    ((step scenario (Event.highDrag "250")).toSlider = "300" ∧
     (step scenario (Event.highDrag "250")).toInput = "300" ∧
     (step scenario (Event.highDrag "250")).left = JsNum.fin 20 ∧
     (step scenario (Event.highDrag "250")).width = JsNum.fin 10) := by
  have hlow := step_lowDrag_ints s v b hmn hmx hv hb hts
  have hhigh := step_highDrag_ints s v a hmn hmx hv ha hfs
  refine ⟨⟨?_, ?_, ?_⟩, ⟨?_, ?_, ?_⟩, ⟨by decide, by decide, by decide, by decide⟩,
    ⟨by decide, by decide, by decide, by decide⟩⟩
  · rw [hlow]; rfl
  · rw [hlow]; rfl
  · intro h1 h2 h3
    have c1 : clampTrack s.min s.max v = v := clampTrack_of_mem _ _ _ h1 h2
    have c2 : clampTrack s.min s.max (min v (b - 100)) = min v (b - 100) :=
      clampTrack_of_mem _ _ _ (by omega) (by omega)
    rw [hlow, c1, c2]
    exact ⟨rfl, rfl⟩
  · rw [hhigh]; rfl
  · rw [hhigh]; rfl
  · intro h1 h2 h3
    have c1 : clampTrack s.min s.max v = v := clampTrack_of_mem _ _ _ h1 h2
    have c2 : clampTrack s.min s.max (max v (a + 100)) = max v (a + 100) :=
      clampTrack_of_mem _ _ _ (by omega) (by omega)
    rw [hhigh, c1, c2]
    exact ⟨rfl, rfl⟩

/-- C2, amended, at a concrete input: the narrow slider `(0, 50)` on track
`0..1000`, raw value `0`. -/
theorem slider_drag_clamp_amended_witness :
    (step narrowStart (Event.lowDrag (intToString 0))).fromInput
        = intToString (min (clampTrack 0 1000 0) (50 - 100)) ∧
    (step narrowStart (Event.lowDrag (intToString 0))).fromSlider
        = intToString (clampTrack 0 1000 (min (clampTrack 0 1000 0) (50 - 100))) :=
  ⟨(slider_drag_clamp_amended narrowStart 0 50 0 (by decide) (by decide) (by decide) (by decide)
      (by decide) rfl rfl).1.1,
   (slider_drag_clamp_amended narrowStart 0 50 0 (by decide) (by decide) (by decide) (by decide)
      (by decide) rfl rfl).1.2.1⟩

/-! ## Text edits -/

/-- C4, as stated, fails: on track `0..1000` from `(200, 800)`, typing `5000`
into the high field leaves the high field at `5000` but the high slider at
`1000`, not both at `max(200, 5000)`. -/
theorem text_edit_tiebreak_counterexample :
    (scenario.fromInput = intToString 200 ∧ scenario.max = 1000) ∧
    (toInputOninput { scenario with toInput := intToString 5000 }).toInput = "5000" ∧
    (toInputOninput { scenario with toInput := intToString 5000 }).toSlider = "1000" ∧
    (toInputOninput { scenario with toInput := intToString 5000 }).toSlider
      ≠ intToString (max 200 5000) := by
  refine ⟨⟨?_, ?_⟩, ?_, ?_, ?_⟩ <;> decide

/-- C4, amended.  With integers `from`, `to` of magnitude at most `2^52` in the
two fields (and track bounds of that magnitude): the low-field handler leaves
the high field and high slider unchanged, makes the low field `min from to` and
the low slider `min from to` clamped to the track; the high-field handler
leaves the low field and low slider unchanged, makes the high field
`max from to` and the high slider `max from to` clamped to the track.  So
`from' ≤ to'` holds for the fields after either handler; no gap is applied:
`from ≥ to` ends in `to' - from' = 0`, and `0 ≤ to - from < 100` is left as
typed. -/
theorem text_edit_tiebreak_amended (s : Slider) (f t : Int)
    (hmn : Safe s.min) (hmx : Safe s.max) (hf : Safe f) (ht : Safe t)
    (hfi : s.fromInput = intToString f) (hti : s.toInput = intToString t) :
    ((fromInputOninput s).toInput = intToString t ∧
     (fromInputOninput s).toSlider = s.toSlider ∧
     (fromInputOninput s).fromInput = intToString (min f t) ∧
     (fromInputOninput s).fromSlider = intToString (clampTrack s.min s.max (min f t))) ∧
    ((toInputOninput s).fromInput = intToString f ∧
     (toInputOninput s).fromSlider = s.fromSlider ∧
     (toInputOninput s).toInput = intToString (max f t) ∧
     (toInputOninput s).toSlider = intToString (clampTrack s.min s.max (max f t))) ∧
    (min f t ≤ t ∧ f ≤ max f t) ∧
    (t ≤ f → t - min f t = 0 ∧ max f t - f = 0) ∧
    (0 ≤ t - f → t - f < 100 → min f t = f ∧ max f t = t) := by
  have hlow := controlFromInput_ints s f t hmn hmx hf.wide ht.wide hfi hti
  have hhigh := controlToInput_ints s f t hmn hmx hf.wide ht.wide hfi hti
  refine ⟨?_, ?_, ⟨min_le_right _ _, le_max_left _ _⟩, ?_, ?_⟩
  · unfold fromInputOninput
    rw [hlow]
    by_cases h : f > t
    · rw [if_pos h, min_eq_right (le_of_lt h)]
      exact ⟨hti, rfl, rfl, rfl⟩
    · rw [if_neg h, min_eq_left (not_lt.mp h)]
      exact ⟨hti, rfl, hfi, rfl⟩
  · unfold toInputOninput
    rw [hhigh]
    by_cases h : f ≤ t
    · rw [if_pos h, max_eq_right h]
      exact ⟨hfi, rfl, hti, rfl⟩
    · rw [if_neg h, max_eq_left (le_of_lt (not_le.mp h))]
      exact ⟨hfi, rfl, rfl, rfl⟩
  · intro h
    rw [min_eq_right h, max_eq_left h]
    omega
  · intro h _
    have : f ≤ t := by omega
    rw [min_eq_left this, max_eq_right this]
    exact ⟨rfl, rfl⟩

/-- C4, amended, at a concrete input: track `0..1000`, fields `(200, 5000)`. -/
theorem text_edit_tiebreak_amended_witness :
    (toInputOninput { scenario with toInput := intToString 5000 }).toInput
      = intToString (max 200 5000) ∧
    (toInputOninput { scenario with toInput := intToString 5000 }).toSlider
      = intToString (clampTrack 0 1000 (max 200 5000)) :=
  ⟨(text_edit_tiebreak_amended { scenario with toInput := intToString 5000 } 200 5000
      (by decide) (by decide) (by decide) (by decide) rfl rfl).2.1.2.2.1,
   (text_edit_tiebreak_amended { scenario with toInput := intToString 5000 } 200 5000
      (by decide) (by decide) (by decide) (by decide) rfl rfl).2.1.2.2.2⟩

/-! ## The four views -/

/-- One event with an integer raw value, from a state in which each slider
holds its field's integer clamped to the track: the same holds afterwards, at
the values shown. -/
theorem step_views (s : Slider) (f t v : Int) (hmn : Safe s.min) (hmx : Safe s.max)
    (htrack : s.min ≤ s.max) (hf : Wide f) (ht : Wide t) (hv : Safe v) (hs : Views s f t) :
    Views (step s (Event.lowDrag (intToString v)))
      (min (clampTrack s.min s.max v) (clampTrack s.min s.max t - 100)) t ∧
    Views (step s (Event.highDrag (intToString v)))
      f (max (clampTrack s.min s.max v) (clampTrack s.min s.max f + 100)) ∧
    Views (step s (Event.lowEdit (intToString v))) (min v t) t ∧
    Views (step s (Event.highEdit (intToString v))) f (max v f) := by
  obtain ⟨h1, h2, h3, h4⟩ := hs
  have cs : ∀ x : Int, Safe (clampTrack s.min s.max x) := by
    intro x
    rw [clampTrack_eq _ _ _ htrack]
    exact ⟨by have := hmn.1; omega, by have := hmx.2; omega⟩
  refine ⟨?_, ?_, ?_, ?_⟩
  · have e := step_lowDrag_ints s v (clampTrack s.min s.max t) hmn hmx hv (cs t) h4
    refine ⟨?_, ?_, ?_, ?_⟩
    · rw [e]; rfl
    · rw [step_min, step_max, e]; rfl
    · rw [e]; exact h3
    · rw [step_min, step_max, e]; exact h4
  · have e := step_highDrag_ints s v (clampTrack s.min s.max f) hmn hmx hv (cs f) h2
    refine ⟨?_, ?_, ?_, ?_⟩
    · rw [e]; exact h1
    · rw [step_min, step_max, e]; exact h2
    · rw [e]; rfl
    · rw [step_min, step_max, e]; rfl
  · have e := step_lowEdit_ints s v t hmn hmx hv.wide ht h3
    refine ⟨?_, ?_, ?_, ?_⟩
    · rw [e]
      by_cases h : v > t
      · rw [if_pos h, min_eq_right (le_of_lt h)]
      · rw [if_neg h, min_eq_left (not_lt.mp h)]; rfl
    · rw [step_min, step_max, e]
      by_cases h : v > t
      · rw [if_pos h, min_eq_right (le_of_lt h)]
      · rw [if_neg h, min_eq_left (not_lt.mp h)]
    · rw [e]
      by_cases h : v > t
      · rw [if_pos h]; exact h3
      · rw [if_neg h]; exact h3
    · rw [step_min, step_max, e]
      by_cases h : v > t
      · rw [if_pos h]; exact h4
      · rw [if_neg h]; exact h4
  · have e := step_highEdit_ints s v f hmn hmx hv.wide hf h1
    refine ⟨?_, ?_, ?_, ?_⟩
    · rw [e]
      by_cases h : f ≤ v
      · rw [if_pos h]; exact h1
      · rw [if_neg h]; exact h1
    · rw [step_min, step_max, e]
      by_cases h : f ≤ v
      · rw [if_pos h]; exact h2
      · rw [if_neg h]; exact h2
    · rw [e]
      by_cases h : f ≤ v
      · rw [if_pos h, max_eq_left h]; rfl
      · rw [if_neg h, max_eq_right (le_of_lt (not_le.mp h))]
    · rw [step_min, step_max, e]
      by_cases h : f ≤ v
      · rw [if_pos h, max_eq_left h]
      · rw [if_neg h, max_eq_right (le_of_lt (not_le.mp h))]

/-- C7, as stated, fails: on track `0..1000` with all four controls agreeing at
`(0, 50)`, a low-slider drag to `0` leaves the low slider at `0` and the low
field at `-50`. -/
theorem four_view_counterexample :
    Synced narrowStart 0 50 ∧
    (step narrowStart (Event.lowDrag (intToString 0))).fromSlider = "0" ∧
    (step narrowStart (Event.lowDrag (intToString 0))).fromInput = "-50" ∧
    (step narrowStart (Event.lowDrag (intToString 0))).fromSlider
      ≠ (step narrowStart (Event.lowDrag (intToString 0))).fromInput := by
  refine ⟨⟨?_, ?_, ?_, ?_⟩, ?_, ?_, ?_⟩ <;> decide

/-- C7, amended.  From a state in which the four controls agree at integers
`(from, to)` within the track `min ≤ max`, after any one of the four handlers
with an integer raw value (all of magnitude at most `2^52`) the low slider holds
the low field's integer clamped to the track and the high slider holds the high
field's integer clamped to the track; so a slider equals its field whenever the
field's integer is within the track. -/
theorem four_view_amended (s : Slider) (f t v : Int) (e : Event)
    (hmn : Safe s.min) (hmx : Safe s.max) (hv : Safe v)
    (hs : Synced s f t) (hf1 : s.min ≤ f) (hf2 : f ≤ s.max) (ht1 : s.min ≤ t) (ht2 : t ≤ s.max)
    (he : e.raw = intToString v) :
    ∃ f1 t1 : Int, Views (step s e) f1 t1 ∧
      (s.min ≤ f1 → f1 ≤ s.max → (step s e).fromSlider = (step s e).fromInput) ∧
      (s.min ≤ t1 → t1 ≤ s.max → (step s e).toSlider = (step s e).toInput) := by
  obtain ⟨g1, g2, g3, g4⟩ := hs
  have hv0 : Views s f t :=
    ⟨g2, by rw [clampTrack_of_mem _ _ _ hf1 hf2]; exact g1, g4,
      by rw [clampTrack_of_mem _ _ _ ht1 ht2]; exact g3⟩
  have wf : Wide f := ⟨by have := hmn.1; omega, by have := hmx.2; omega⟩
  have wt : Wide t := ⟨by have := hmn.1; omega, by have := hmx.2; omega⟩
  obtain ⟨k1, k2, k3, k4⟩ := step_views s f t v hmn hmx (by omega) wf wt hv hv0
  have key : ∃ f1 t1 : Int, Views (step s e) f1 t1 := by
    cases e with
    | lowDrag r => simp only [Event.raw] at he; subst he; exact ⟨_, _, k1⟩
    | highDrag r => simp only [Event.raw] at he; subst he; exact ⟨_, _, k2⟩
    | lowEdit r => simp only [Event.raw] at he; subst he; exact ⟨_, _, k3⟩
    | highEdit r => simp only [Event.raw] at he; subst he; exact ⟨_, _, k4⟩
  obtain ⟨f1, t1, w1, w2, w3, w4⟩ := key
  refine ⟨f1, t1, ⟨w1, w2, w3, w4⟩, ?_, ?_⟩
  · intro a b
    rw [w2, w1, step_min, step_max, clampTrack_of_mem _ _ _ a b]
  · intro a b
    rw [w4, w3, step_min, step_max, clampTrack_of_mem _ _ _ a b]

/-- C7, amended, at a concrete input: the narrow slider `(0, 50)` on track
`0..1000`, the low slider dragged to `0`. -/
theorem four_view_amended_witness :
    ∃ f1 t1 : Int, Views (step narrowStart (Event.lowDrag "0")) f1 t1 ∧
      (narrowStart.min ≤ f1 → f1 ≤ narrowStart.max →
        (step narrowStart (Event.lowDrag "0")).fromSlider
          = (step narrowStart (Event.lowDrag "0")).fromInput) ∧
      (narrowStart.min ≤ t1 → t1 ≤ narrowStart.max →
        (step narrowStart (Event.lowDrag "0")).toSlider
          = (step narrowStart (Event.lowDrag "0")).toInput) :=
  four_view_amended narrowStart 0 50 0 (Event.lowDrag "0") (by decide) (by decide) (by decide)
    ⟨rfl, rfl, rfl, rfl⟩ (by decide) (by decide) (by decide) (by decide) rfl

/-! ## The selected range under all four handlers -/

/-- What every finite sequence of events with integer raw values in `[mn, mx]`
preserves. -/
theorem run_range (es : List Event) :
    ∀ (s : Slider) (f t : Int), Safe s.min → Safe s.max → Views s f t →
      f ≤ t → s.min - 100 ≤ f → f ≤ s.max → s.min ≤ t → t ≤ s.max + 100 →
      (∀ e ∈ es, ∃ v : Int, e.raw = intToString v ∧ s.min ≤ v ∧ v ≤ s.max) →
      ∃ f1 t1 : Int, Views (run s es) f1 t1 ∧
        f1 ≤ t1 ∧ s.min - 100 ≤ f1 ∧ f1 ≤ s.max ∧ s.min ≤ t1 ∧ t1 ≤ s.max + 100 := by
  induction es with
  | nil =>
    intro s f t _ _ hs h1 h2 h3 h4 h5 _
    exact ⟨f, t, hs, h1, h2, h3, h4, h5⟩
  | cons e es ih =>
    intro s f t hmn hmx hs h1 h2 h3 h4 h5 hes
    obtain ⟨v, hv, hv1, hv2⟩ := hes e (List.mem_cons_self _ _)
    have htrack : s.min ≤ s.max := by omega
    have sv : Safe v := ⟨by have := hmn.1; omega, by have := hmx.2; omega⟩
    have wf : Wide f := ⟨by have := hmn.1; omega, by have := hmx.2; omega⟩
    have wt : Wide t := ⟨by have := hmn.1; omega, by have := hmx.2; omega⟩
    obtain ⟨s1, s2, s3, s4⟩ := step_views s f t v hmn hmx htrack wf wt sv hs
    have hrest : ∀ x ∈ es, ∃ w : Int, x.raw = intToString w ∧
        (step s e).min ≤ w ∧ w ≤ (step s e).max := by
      intro x hx
      rw [step_min, step_max]
      exact hes x (List.mem_cons_of_mem _ hx)
    have hmn1 : Safe (step s e).min := by rw [step_min]; exact hmn
    have hmx1 : Safe (step s e).max := by rw [step_max]; exact hmx
    rw [run_cons]
    have fin : ∀ (f0 t0 : Int), Views (step s e) f0 t0 →
        f0 ≤ t0 → s.min - 100 ≤ f0 → f0 ≤ s.max → s.min ≤ t0 → t0 ≤ s.max + 100 →
        ∃ f1 t1 : Int, Views (run (step s e) es) f1 t1 ∧
          f1 ≤ t1 ∧ s.min - 100 ≤ f1 ∧ f1 ≤ s.max ∧ s.min ≤ t1 ∧ t1 ≤ s.max + 100 := by
      intro f0 t0 w a1 a2 a3 a4 a5
      have := ih (step s e) f0 t0 hmn1 hmx1 w a1 (by rw [step_min]; exact a2)
        (by rw [step_max]; exact a3) (by rw [step_min]; exact a4)
        (by rw [step_max]; exact a5) hrest
      simpa only [step_min, step_max] using this
    cases e with
    | lowDrag r =>
      simp only [Event.raw] at hv
      subst hv
      simp only [clampTrack_eq _ _ _ htrack] at s1
      refine fin _ _ s1 ?_ ?_ ?_ h4 h5 <;> omega
    | highDrag r =>
      simp only [Event.raw] at hv
      subst hv
      simp only [clampTrack_eq _ _ _ htrack] at s2
      refine fin _ _ s2 ?_ h2 h3 ?_ ?_ <;> omega
    | lowEdit r =>
      simp only [Event.raw] at hv
      subst hv
      refine fin _ _ s3 ?_ ?_ ?_ h4 h5 <;> omega
    | highEdit r =>
      simp only [Event.raw] at hv
      subst hv
      refine fin _ _ s4 ?_ h2 h3 ?_ ?_ <;> omega

/-- C5, as the specification states it, fails: on track `0..1000` the state
`(0, 50)` satisfies `min ≤ from ≤ to ≤ max`, the raw value `0` lies in
`[min, max]`, and a low-slider drag to `0` writes `-50` to the low field, below
`min`. -/
theorem range_invariant_counterexample :
    (narrowStart.min = 0 ∧ narrowStart.max = 1000) ∧
    Synced narrowStart 0 50 ∧
    ((0 : Int) < 1000 ∧ (100 : Int) ≤ 1000 - 0 ∧ (0 : Int) ≤ 0 ∧ (0 : Int) ≤ 50 ∧
      (50 : Int) ≤ 1000) ∧
    (run narrowStart [Event.lowDrag "0"]).fromInput = "-50" ∧
    parseInt (run narrowStart [Event.lowDrag "0"]).fromInput = JsNum.fin (-50) ∧
    ¬ ((0 : Int) ≤ -50) := by
  refine ⟨⟨rfl, rfl⟩, ⟨rfl, rfl, rfl, rfl⟩, by decide, ?_, ?_, by decide⟩ <;> decide

/-- C5, amended.  On a track `min < max` with `max - min ≥ 100` and bounds of
magnitude at most `2^52`, from a state in which the four controls agree at
`min ≤ from ≤ to ≤ max`, after any finite sequence of the four handlers with
integer raw values in `[min, max]`: the two sliders hold integers with
`min ≤ from ≤ to ≤ max`, and the two fields hold integers with `from ≤ to`,
`min - 100 ≤ from ≤ max` and `min ≤ to ≤ max + 100`. -/
theorem range_invariant_amended (f t : Int) (s : Slider) (es : List Event)
    (hmn : Safe s.min) (hmx : Safe s.max) (_htrack : s.min < s.max)
    (_hwide : 100 ≤ s.max - s.min)
    (hs : Synced s f t) (h1 : s.min ≤ f) (h2 : f ≤ t) (h3 : t ≤ s.max)
    (hes : ∀ e ∈ es, ∃ v : Int, e.raw = intToString v ∧ s.min ≤ v ∧ v ≤ s.max) :
    ∃ a b f1 t1 : Int,
      ((run s es).fromSlider = intToString a ∧ (run s es).toSlider = intToString b ∧
        s.min ≤ a ∧ a ≤ b ∧ b ≤ s.max) ∧
      ((run s es).fromInput = intToString f1 ∧ (run s es).toInput = intToString t1 ∧
        f1 ≤ t1 ∧ s.min - 100 ≤ f1 ∧ f1 ≤ s.max ∧ s.min ≤ t1 ∧ t1 ≤ s.max + 100) := by
  obtain ⟨g1, g2, g3, g4⟩ := hs
  have hv0 : Views s f t :=
    ⟨g2, by rw [clampTrack_of_mem _ _ _ h1 (by omega)]; exact g1, g4,
      by rw [clampTrack_of_mem _ _ _ (by omega) h3]; exact g3⟩
  obtain ⟨f1, t1, ⟨w1, w2, w3, w4⟩, k1, k2, k3, k4, k5⟩ :=
    run_range es s f t hmn hmx hv0 h2 (by omega) (by omega) (by omega) (by omega) hes
  rw [run_min, run_max] at w2 w4
  have htr : s.min ≤ s.max := by omega
  refine ⟨_, _, f1, t1, ⟨w2, w4, ?_, ?_, ?_⟩, ⟨w1, w3, k1, k2, k3, k4, k5⟩⟩ <;>
    simp only [clampTrack_eq _ _ _ htr] <;> omega

/-- C5, amended, at a concrete input: track `0..1000`, start `(0, 50)`, the high
field edited to `40` and then the low slider dragged to `0`. -/
theorem range_invariant_amended_witness :
    ∃ a b f1 t1 : Int,
      ((run narrowStart [Event.highEdit "40", Event.lowDrag "0"]).fromSlider = intToString a ∧
        (run narrowStart [Event.highEdit "40", Event.lowDrag "0"]).toSlider = intToString b ∧
        narrowStart.min ≤ a ∧ a ≤ b ∧ b ≤ narrowStart.max) ∧
      ((run narrowStart [Event.highEdit "40", Event.lowDrag "0"]).fromInput = intToString f1 ∧
        (run narrowStart [Event.highEdit "40", Event.lowDrag "0"]).toInput = intToString t1 ∧
        f1 ≤ t1 ∧ narrowStart.min - 100 ≤ f1 ∧ f1 ≤ narrowStart.max ∧
        narrowStart.min ≤ t1 ∧ t1 ≤ narrowStart.max + 100) :=
  range_invariant_amended 0 50 narrowStart [Event.highEdit "40", Event.lowDrag "0"]
    (by decide) (by decide) (by decide) (by decide)
    ⟨rfl, rfl, rfl, rfl⟩ (by decide) (by decide) (by decide)
    (by
      intro e he
      simp only [List.mem_cons, List.mem_singleton, List.not_mem_nil, or_false] at he
      rcases he with rfl | rfl
      · exact ⟨40, rfl, by decide, by decide⟩
      · exact ⟨0, rfl, by decide, by decide⟩)

/-! ## Malformed text -/

theorem lt_nan_right (a : JsNum) : JsNum.lt a JsNum.nan = false := by
  cases a <;> rfl

theorem le_nan_right (a : JsNum) : JsNum.le a JsNum.nan = false := by
  cases a <;> rfl

theorem lt_nan_left (a : JsNum) : JsNum.lt JsNum.nan a = false := by
  cases a <;> rfl

theorem le_nan_left (a : JsNum) : JsNum.le JsNum.nan a = false := by
  cases a <;> rfl

/-- C6, as the specification states it, fails: with `200` in the low field and
the text `abc` typed into the high field (which then parses to `NaN`), the
high-field handler takes its snap branch and overwrites the high field with
`200`; likewise when the high field is emptied. -/
theorem malformed_text_counterexample :
    parseInt "abc" = JsNum.nan ∧
    (step scenario (Event.highEdit "abc")).toInput = "200" ∧
    (step scenario (Event.highEdit "abc")).toInput ≠ "abc" ∧
    (step scenario (Event.highEdit "abc")).toSlider = "200" ∧
    parseInt "" = JsNum.nan ∧
    (controlToInput { scenario with toInput := "" }).toInput = "200" := by
  refine ⟨?_, ?_, ?_, ?_, ?_, ?_⟩ <;> decide

/-- C6, amended.  When at least one of the two fields parses to `NaN`, both
comparisons `from > to` and `from <= to` are false.  `controlFromInput` then
takes its non-snap branch: it writes neither field and stores the string of
the parsed low value into the low slider.  `controlToInput` then takes its snap
branch: it stores the string of the parsed low value into the high field and
the high slider and leaves the low field alone; when the low field is the
malformed one that string is `NaN`, which the number field turns into the
empty string. -/
theorem malformed_text_amended (s : Slider)
    (h : parseInt s.fromInput = JsNum.nan ∨ parseInt s.toInput = JsNum.nan) :
    (jsGt (parseInt s.fromInput) (parseInt s.toInput) = false ∧
      jsLe (parseInt s.fromInput) (parseInt s.toInput) = false) ∧
    ((controlFromInput s).fromInput = s.fromInput ∧
      (controlFromInput s).toInput = s.toInput ∧
      (controlFromInput s).fromSlider
        = rangeSanitize s.min s.max (numToString (parseInt s.fromInput))) ∧
    ((controlToInput s).toInput = numberSanitize (numToString (parseInt s.fromInput)) ∧
      (controlToInput s).toSlider
        = rangeSanitize s.min s.max (numToString (parseInt s.fromInput)) ∧
      (controlToInput s).fromInput = s.fromInput) ∧
    (parseInt s.fromInput = JsNum.nan → (controlToInput s).toInput = "") := by
  have hgt : jsGt (parseInt s.fromInput) (parseInt s.toInput) = false := by
    unfold jsGt
    rcases h with h | h
    · rw [h]; exact lt_nan_right _
    · rw [h]; exact lt_nan_left _
  have hle : jsLe (parseInt s.fromInput) (parseInt s.toInput) = false := by
    unfold jsLe
    rcases h with h | h
    · rw [h]; exact le_nan_left _
    · rw [h]; exact le_nan_right _
  have hto : (controlToInput s).toInput = numberSanitize (numToString (parseInt s.fromInput)) := by
    simp [controlToInput, getParsedValue, hle, fillSlider, Slider.setToInput, Slider.setToSlider]
  refine ⟨⟨hgt, hle⟩, ?_, ⟨hto, ?_, ?_⟩, ?_⟩
  · simp [controlFromInput, getParsedValue, hgt, fillSlider, Slider.setFromSlider]
  · simp [controlToInput, getParsedValue, hle, fillSlider, Slider.setToInput, Slider.setToSlider]
  · simp [controlToInput, getParsedValue, hle, fillSlider, Slider.setToInput, Slider.setToSlider]
  · intro hn
    rw [hto, hn]
    decide

/-- C6, amended, at a concrete input: the scenario slider with the high field
emptied. -/
theorem malformed_text_amended_witness :
    (jsGt (parseInt "200") (parseInt "") = false ∧
      jsLe (parseInt "200") (parseInt "") = false) ∧
    ((controlFromInput { scenario with toInput := "" }).fromInput = "200" ∧
      (controlFromInput { scenario with toInput := "" }).toInput = "" ∧
      (controlFromInput { scenario with toInput := "" }).fromSlider
        = rangeSanitize 0 1000 (numToString (parseInt "200"))) ∧
    ((controlToInput { scenario with toInput := "" }).toInput
        = numberSanitize (numToString (parseInt "200")) ∧
      (controlToInput { scenario with toInput := "" }).toSlider
        = rangeSanitize 0 1000 (numToString (parseInt "200")) ∧
      (controlToInput { scenario with toInput := "" }).fromInput = "200") ∧
    (parseInt "200" = JsNum.nan → (controlToInput { scenario with toInput := "" }).toInput = "") :=
  malformed_text_amended { scenario with toInput := "" } (Or.inr (by decide))

/-! ## Idempotence of the slider handlers -/

set_option maxRecDepth 1000000 in
/-- C8, as stated, fails: on the track `0..10^22` with the sliders at
`(0, 800)`, a high drag to `10^21` writes `1e+21`; running the high-slider
handler again on that written value reads it as `1` and writes `100`. -/
theorem slider_idempotent_counterexample :
    (hugeTrack.fromSlider = "0" ∧ hugeTrack.toSlider = "800") ∧
    (step hugeTrack (Event.highDrag "1000000000000000000000")).toSlider = "1e+21" ∧
    (toSliderOninput (step hugeTrack (Event.highDrag "1000000000000000000000"))).toSlider
      = "100" ∧
    toSliderOninput (step hugeTrack (Event.highDrag "1000000000000000000000"))
      ≠ step hugeTrack (Event.highDrag "1000000000000000000000") := by
  have e1 : (step hugeTrack (Event.highDrag "1000000000000000000000")).toSlider = "1e+21" := by
    decide
  have e2 : (toSliderOninput
      (step hugeTrack (Event.highDrag "1000000000000000000000"))).toSlider = "100" := by
    decide
  refine ⟨⟨rfl, rfl⟩, e1, e2, ?_⟩
  intro h
  have := congrArg Slider.toSlider h
  rw [e1, e2] at this
  exact absurd this (by decide)

/-- C8, amended.  With integer sliders, an integer raw value and track bounds,
all of magnitude at most `2^52`: running the low-slider handler a second time
with the same raw value, or on the value it wrote, leaves the whole state (the
four control values and the fill bar's left and width) as the first run left
it; the same for the high-slider handler. -/
theorem slider_idempotent_amended (s : Slider) (a b v : Int)
    (hmn : Safe s.min) (hmx : Safe s.max) (ha : Safe a) (hb : Safe b) (hv : Safe v)
    (hfs : s.fromSlider = intToString a) (hts : s.toSlider = intToString b) :
    step (step s (Event.lowDrag (intToString v))) (Event.lowDrag (intToString v))
      = step s (Event.lowDrag (intToString v)) ∧
    fromSliderOninput (step s (Event.lowDrag (intToString v)))
      = step s (Event.lowDrag (intToString v)) ∧
    step (step s (Event.highDrag (intToString v))) (Event.highDrag (intToString v))
      = step s (Event.highDrag (intToString v)) ∧
    toSliderOninput (step s (Event.highDrag (intToString v)))
      = step s (Event.highDrag (intToString v)) := by
  have hlow := step_lowDrag_ints s v b hmn hmx hv hb hts
  have hhigh := step_highDrag_ints s v a hmn hmx hv ha hfs
  have hmn1 : ∀ e, Safe (step s e).min := fun e => by rw [step_min]; exact hmn
  have hmx1 : ∀ e, Safe (step s e).max := fun e => by rw [step_max]; exact hmx
  have cv : Safe (clampTrack s.min s.max v) := clampTrack_safe _ _ _ hmn hmx hv
  have hc_lo : s.min ≤ clampTrack s.min s.max v := by
    unfold clampTrack; split_ifs <;> omega
  have hc_hi : s.min ≤ s.max → clampTrack s.min s.max v ≤ s.max := by
    intro h; unfold clampTrack; split_ifs <;> omega
  have tsl : (step s (Event.lowDrag (intToString v))).toSlider = intToString b := by
    rw [hlow]; exact hts
  have fsl : (step s (Event.lowDrag (intToString v))).fromSlider
      = intToString (clampTrack s.min s.max (min (clampTrack s.min s.max v) (b - 100))) := by
    rw [hlow]; rfl
  have fsh : (step s (Event.highDrag (intToString v))).fromSlider = intToString a := by
    rw [hhigh]; exact hfs
  have tsh : (step s (Event.highDrag (intToString v))).toSlider
      = intToString (clampTrack s.min s.max (max (clampTrack s.min s.max v) (a + 100))) := by
    rw [hhigh]; rfl
  have wlow : Wide (min (clampTrack s.min s.max v) (b - 100)) := by
    obtain ⟨c1, c2⟩ := cv
    obtain ⟨b1, b2⟩ := hb
    rcases min_choice (clampTrack s.min s.max v) (b - 100) with h | h <;> rw [h] <;>
      exact ⟨by omega, by omega⟩
  have whigh : Wide (max (clampTrack s.min s.max v) (a + 100)) := by
    obtain ⟨c1, c2⟩ := cv
    obtain ⟨a1, a2⟩ := ha
    rcases max_choice (clampTrack s.min s.max v) (a + 100) with h | h <;> rw [h] <;>
      exact ⟨by omega, by omega⟩
  have hVlow :
      min (clampTrack s.min s.max (min (clampTrack s.min s.max v) (b - 100))) (b - 100)
        = min (clampTrack s.min s.max v) (b - 100) := by
    generalize clampTrack s.min s.max v = c at hc_lo hc_hi ⊢
    unfold clampTrack
    simp only [min_def]
    split_ifs <;> omega
  have hVhigh :
      max (clampTrack s.min s.max (max (clampTrack s.min s.max v) (a + 100))) (a + 100)
        = max (clampTrack s.min s.max v) (a + 100) := by
    generalize clampTrack s.min s.max v = c at hc_lo hc_hi ⊢
    unfold clampTrack
    simp only [max_def]
    split_ifs <;> omega
  refine ⟨?_, ?_, ?_, ?_⟩
  · rw [step_lowDrag_ints _ v b (hmn1 _) (hmx1 _) hv hb tsl, step_min, step_max]
    rw [hlow]
    rfl
  · rw [fromSliderOninput_ints _ _ b (hmn1 _) (hmx1 _) (clampTrack_wide _ _ _ hmn hmx wlow) hb
      fsl tsl, step_min, step_max, hVlow]
    rw [hlow]
    rfl
  · rw [step_highDrag_ints _ v a (hmn1 _) (hmx1 _) hv ha fsh, step_min, step_max]
    rw [hhigh]
    rfl
  · rw [toSliderOninput_ints _ _ a (hmn1 _) (hmx1 _) (clampTrack_wide _ _ _ hmn hmx whigh) ha
      tsh fsh, step_min, step_max, hVhigh]
    rw [hhigh]
    rfl

/-- C8, amended, at a concrete input: the scenario slider, raw value `750`. -/
theorem slider_idempotent_amended_witness :
    step (step scenario (Event.lowDrag (intToString 750))) (Event.lowDrag (intToString 750))
      = step scenario (Event.lowDrag (intToString 750)) ∧
    fromSliderOninput (step scenario (Event.lowDrag (intToString 750)))
      = step scenario (Event.lowDrag (intToString 750)) ∧
    step (step scenario (Event.highDrag (intToString 750))) (Event.highDrag (intToString 750))
      = step scenario (Event.highDrag (intToString 750)) ∧
    toSliderOninput (step scenario (Event.highDrag (intToString 750)))
      = step scenario (Event.highDrag (intToString 750)) :=
  slider_idempotent_amended scenario 200 800 750 (by decide) (by decide) (by decide) (by decide)
    (by decide) rfl rfl

/-! ## The quantity stepper -/

/-- C10, as stated, fails: with `2^53 = 9007199254740992` in the quantity input
the plus handler writes `9007199254740992` again, not `q + 1`; with
`9007199254740993` the minus handler writes `9007199254740991`, not `q - 1`. -/
theorem quantity_stepper_counterexample :
    plusClick (intToString 9007199254740992) = "9007199254740992" ∧
    plusClick (intToString 9007199254740992) ≠ intToString (max 1 (9007199254740992 + 1)) ∧
    minusClick (intToString 9007199254740993) = "9007199254740991" ∧
    minusClick (intToString 9007199254740993) ≠ intToString (max 1 (9007199254740993 - 1)) := by
  refine ⟨?_, ?_, ?_, ?_⟩ <;> decide

/-- C10, amended.  With an integer `q` of magnitude below `2^53` in the quantity
input, the minus handler writes `max 1 (q - 1)` and the plus handler writes
`max 1 (q + 1)`; an empty input is treated as `1`; the written quantity is
always at least `1`, minus at `q ≤ 2` writes `1`, and plus at `q ≥ 0` writes
exactly `q + 1`. -/
theorem quantity_stepper_amended (q : Int)
    (h1 : -9007199254740992 < q) (h2 : q < 9007199254740992) :
    minusClick (intToString q) = intToString (max 1 (q - 1)) ∧
    plusClick (intToString q) = intToString (max 1 (q + 1)) ∧
    (minusClick "" = minusClick "1" ∧ plusClick "" = plusClick "1" ∧
      minusClick "" = "1" ∧ plusClick "" = "2") ∧
    (∃ k : Int, parseInt (minusClick (intToString q)) = JsNum.fin k ∧ 1 ≤ k) ∧
    (∃ k : Int, parseInt (plusClick (intToString q)) = JsNum.fin k ∧ 1 ≤ k) ∧
    (q ≤ 2 → minusClick (intToString q) = "1") ∧
    (0 ≤ q → plusClick (intToString q) = intToString (q + 1)) := by
  have hp : parseInt (intToString q) = JsNum.fin (q : ℚ) := by
    rw [parseInt_intToString, ofInt_exact q (by omega) (by omega)]
  have b1 : -9007199254740992 ≤ max 1 (q - 1) ∧ max 1 (q - 1) ≤ 9007199254740992 := by
    constructor <;> omega
  have b2 : -9007199254740992 ≤ max 1 (q + 1) ∧ max 1 (q + 1) ≤ 9007199254740992 := by
    constructor <;> omega
  have hm : minusClick (intToString q) = intToString (max 1 (q - 1)) := by
    simp only [minusClick, valueOrOne, if_neg (intToString_ne_empty q), hp, fin_one,
      fin_sub_int q 1 (by omega) (by omega), mathMax_int]
    exact numToString_int _ b1.1 b1.2
  have hpl : plusClick (intToString q) = intToString (max 1 (q + 1)) := by
    simp only [plusClick, valueOrOne, if_neg (intToString_ne_empty q), hp, fin_one,
      fin_add_int q 1 (by omega) (by omega), mathMax_int]
    exact numToString_int _ b2.1 b2.2
  refine ⟨hm, hpl, ⟨by decide, by decide, by decide, by decide⟩, ?_, ?_, ?_, ?_⟩
  · refine ⟨max 1 (q - 1), ?_, le_max_left _ _⟩
    rw [hm, parseInt_intToString, ofInt_exact _ b1.1 b1.2]
  · refine ⟨max 1 (q + 1), ?_, le_max_left _ _⟩
    rw [hpl, parseInt_intToString, ofInt_exact _ b2.1 b2.2]
  · intro h
    rw [hm, max_eq_left (by omega)]
    rfl
  · intro h
    rw [hpl, max_eq_right (by omega)]

/-- C10, amended, at a concrete input: quantity `5`. -/
theorem quantity_stepper_amended_witness :
    minusClick (intToString 5) = intToString (max 1 (5 - 1)) ∧
    plusClick (intToString 5) = intToString (max 1 (5 + 1)) :=
  ⟨(quantity_stepper_amended 5 (by decide) (by decide)).1,
   (quantity_stepper_amended 5 (by decide) (by decide)).2.1⟩

/-! ## The fill bar -/

/-- C9, as stated, fails.  On track `0..1000` with `from = 7` the code's
`left` is the double `0.7000000000000001`, not the rational `7/10`.  With
`from = 64`, `to = 1000` the code's `left` and `width` are the doubles `6.4`
and `93.60000000000001`, whose sum exceeds `100`. -/
theorem fillSlider_counterexample :
    ((fillSlider { scenario with fromInput := "7" }).left
        = JsNum.fin (mkRat 6305039478318695 9007199254740992) ∧
      mkRat 6305039478318695 9007199254740992
        ≠ (((7 : Int) : ℚ) - (0 : Int)) / (((1000 : Int) : ℚ) - (0 : Int)) * 100) ∧
    ((fillSlider { scenario with fromInput := "64", toInput := "1000" }).left
        = JsNum.fin (mkRat 3602879701896397 562949953421312) ∧
      (fillSlider { scenario with fromInput := "64", toInput := "1000" }).width
        = JsNum.fin (mkRat 6586514455029351 70368744177664) ∧
      ((0 : Int) ≤ 64 ∧ (64 : Int) ≤ 1000 ∧ (1000 : Int) ≤ 1000) ∧
      (100 : ℚ) < mkRat 3602879701896397 562949953421312
        + mkRat 6586514455029351 70368744177664) := by
  refine ⟨⟨by decide, ?_⟩, ⟨by decide, by decide, by decide, ?_⟩⟩
  · rw [Rat.mkRat_eq_div]; norm_num
  · rw [Rat.mkRat_eq_div, Rat.mkRat_eq_div]; norm_num

theorem div_int_bounds (x r : Int) (hx0 : 0 ≤ x) (hxr : x ≤ r) (hr : 0 < r) :
    ∃ q : ℚ, JsNum.fin (x : ℚ) / JsNum.fin (r : ℚ) = JsNum.fin q ∧ 0 ≤ q ∧ q ≤ 1 := by
  show ∃ q : ℚ, JsNum.div (JsNum.fin (x : ℚ)) (JsNum.fin (r : ℚ)) = JsNum.fin q ∧ 0 ≤ q ∧ q ≤ 1
  have hs : r.sign = 1 := Int.sign_eq_one_of_pos hr
  simp only [JsNum.div, Rat.intCast_num, Rat.intCast_den, Nat.cast_one, mul_one, one_mul,
    if_neg (ne_of_gt hr), hs]
  obtain ⟨q, h1, h2, h3⟩ := roundRatio_bounds x r.natAbs 1 (by omega) hx0 (by omega) (by norm_num)
  exact ⟨q, h1, h2, by simpa using h3⟩

theorem mul_hundred_bounds (q : ℚ) (h0 : 0 ≤ q) (h1 : q ≤ 1) :
    ∃ p : ℚ, JsNum.fin q * JsNum.fin 100 = JsNum.fin p ∧ 0 ≤ p ∧ p ≤ 100 := by
  show ∃ p : ℚ, JsNum.mul (JsNum.fin q) (JsNum.fin 100) = JsNum.fin p ∧ 0 ≤ p ∧ p ≤ 100
  have hn : 0 ≤ q.num := Rat.num_nonneg.mpr h0
  have hd : q.num ≤ (q.den : Int) := by
    have hq : (q.num : ℚ) / (q.den : ℚ) ≤ 1 := by rw [Rat.num_div_den]; exact h1
    have hp : (0 : ℚ) < (q.den : ℚ) := by exact_mod_cast q.den_pos
    rw [div_le_one hp] at hq
    exact_mod_cast hq
  have e1 : (100 : ℚ).num = 100 := rfl
  have e2 : (100 : ℚ).den = 1 := rfl
  simp only [JsNum.mul, e1, e2, Nat.mul_one]
  obtain ⟨p, k1, k2, k3⟩ := roundRatio_bounds (q.num * 100) q.den 100 q.den_pos (by omega)
    (by push_cast; omega) (by norm_num)
  exact ⟨p, k1, k2, by simpa using k3⟩

/-- C9, amended.  For integer track bounds `min < max` and integer field values
`from`, `to`, all of magnitude at most `2^52`, `fillSlider` sets `left` to the
double product by `100` of the double quotient `(from - min) / (max - min)`,
and `width` to the double product by `100` of the double quotient
`(to - from) / (max - min)`; each operation rounds to the nearest double, so
the values are within rounding of the exact ones and not equal to them in
general.  Whenever `min ≤ from ≤ to ≤ max`, both are finite with
`0 ≤ left ≤ 100` and `0 ≤ width ≤ 100`. -/
theorem fillSlider_amended (s : Slider) (f t : Int)
    (hmn : Safe s.min) (hmx : Safe s.max) (hf : Safe f) (ht : Safe t) (h : s.min < s.max)
    (hfi : s.fromInput = intToString f) (hti : s.toInput = intToString t) :
    (fillSlider s).left
      = (JsNum.fin ((f - s.min : Int) : ℚ) / JsNum.fin ((s.max - s.min : Int) : ℚ))
          * JsNum.fin 100 ∧
    (fillSlider s).width
      = (JsNum.fin ((t - f : Int) : ℚ) / JsNum.fin ((s.max - s.min : Int) : ℚ))
          * JsNum.fin 100 ∧
    (s.min ≤ f → f ≤ t → t ≤ s.max →
      ∃ l w : ℚ, (fillSlider s).left = JsNum.fin l ∧ (fillSlider s).width = JsNum.fin w ∧
        0 ≤ l ∧ l ≤ 100 ∧ 0 ≤ w ∧ w ≤ 100) := by
  obtain ⟨m1, m2⟩ := hmn
  obtain ⟨x1, x2⟩ := hmx
  obtain ⟨f1, f2⟩ := hf
  obtain ⟨t1, t2⟩ := ht
  have p1 : toNumber s.toSliderMax = JsNum.fin (s.max : ℚ) :=
    toNumber_wide s.max ⟨by omega, by omega⟩
  have p2 : toNumber s.toSliderMin = JsNum.fin (s.min : ℚ) :=
    toNumber_wide s.min ⟨by omega, by omega⟩
  have p3 : toNumber s.fromInput = JsNum.fin (f : ℚ) := by
    rw [hfi]; exact toNumber_wide f ⟨by omega, by omega⟩
  have p4 : toNumber s.toInput = JsNum.fin (t : ℚ) := by
    rw [hti]; exact toNumber_wide t ⟨by omega, by omega⟩
  have hl : (fillSlider s).left
      = (JsNum.fin ((f - s.min : Int) : ℚ) / JsNum.fin ((s.max - s.min : Int) : ℚ))
          * JsNum.fin 100 := by
    simp only [fillSlider, p1, p2, p3, fin_sub_int s.max s.min (by omega) (by omega),
      fin_sub_int f s.min (by omega) (by omega)]
  have hw : (fillSlider s).width
      = (JsNum.fin ((t - f : Int) : ℚ) / JsNum.fin ((s.max - s.min : Int) : ℚ))
          * JsNum.fin 100 := by
    have e : (t - s.min) - (f - s.min) = t - f := by ring
    simp only [fillSlider, p1, p2, p3, p4, fin_sub_int s.max s.min (by omega) (by omega),
      fin_sub_int f s.min (by omega) (by omega), fin_sub_int t s.min (by omega) (by omega),
      fin_sub_int (t - s.min) (f - s.min) (by omega) (by omega), e]
  refine ⟨hl, hw, ?_⟩
  intro a b c
  obtain ⟨q1, d1, d2, d3⟩ := div_int_bounds (f - s.min) (s.max - s.min) (by omega) (by omega)
    (by omega)
  obtain ⟨q2, g1, g2, g3⟩ := div_int_bounds (t - f) (s.max - s.min) (by omega) (by omega)
    (by omega)
  obtain ⟨l, l1, l2, l3⟩ := mul_hundred_bounds q1 d2 d3
  obtain ⟨w, w1, w2, w3⟩ := mul_hundred_bounds q2 g2 g3
  exact ⟨l, w, by rw [hl, d1, l1], by rw [hw, g1, w1], l2, l3, w2, w3⟩

/-- C9, amended, at a concrete input: track `0..1000`, fields `(64, 1000)`. -/
theorem fillSlider_amended_witness :
    (fillSlider { scenario with fromInput := intToString 64, toInput := intToString 1000 }).left
      = (JsNum.fin ((64 - 0 : Int) : ℚ) / JsNum.fin ((1000 - 0 : Int) : ℚ)) * JsNum.fin 100 ∧
    (fillSlider { scenario with fromInput := intToString 64, toInput := intToString 1000 }).width
      = (JsNum.fin ((1000 - 64 : Int) : ℚ) / JsNum.fin ((1000 - 0 : Int) : ℚ)) * JsNum.fin 100 ∧
    ((0 : Int) ≤ 64 → (64 : Int) ≤ 1000 → (1000 : Int) ≤ 1000 →
      ∃ l w : ℚ,
        (fillSlider { scenario with fromInput := intToString 64,
                                    toInput := intToString 1000 }).left = JsNum.fin l ∧
        (fillSlider { scenario with fromInput := intToString 64,
                                    toInput := intToString 1000 }).width = JsNum.fin w ∧
        0 ≤ l ∧ l ≤ 100 ∧ 0 ≤ w ∧ w ≤ 100) :=
  fillSlider_amended { scenario with fromInput := intToString 64, toInput := intToString 1000 }
    64 1000 (by decide) (by decide) (by decide) (by decide) (by decide) rfl rfl

end Mesbah
